import Mathlib

set_option maxHeartbeats 1000000

/- Verification development for the chat streaming pipeline of a desktop
   agent client: the main-process chat orchestrator (src/main/lib/trpc/
   routers/claude.ts) and the renderer-side stream adapter (src/renderer/
   features/agents/lib/ipc-chat-transport.ts), embedded shallowly as pure
   Lean functions over explicit state. -/

/- ===================================================================
   Shared data model: persisted messages and parts
   =================================================================== -/

/-- One structural unit of a persisted Message: a text span, a tool
invocation record (stable invocation id, tool name, and a state of call or
result), or a system compaction marker. Mirrors the part objects
accumulated and persisted by claude.ts. -/
inductive MsgPart where
  | text (s : String)
  | tool (toolCallId : String) (toolName : String) (state : String)
  | sysCompact (toolCallId : String) (state : String)
deriving DecidableEq

/-- A persisted chat message: role and ordered parts, as serialized into
the subChats.messages column. -/
structure PersistedMsg where
  role : String
  parts : List MsgPart
deriving DecidableEq

/-- The text field of a part as read by the expression
lastMsg.parts[0].text in claude.ts: present only on text parts. -/
def partText : MsgPart → Option String
  | MsgPart.text s => some s
  | _ => none

/- ===================================================================
   C5: duplicate resubmission suppression (claude.ts lines 659-688)
   =================================================================== -/

/-- Duplicate resubmission check (claude.ts lines 660-663): the last
stored message is a user message whose first part carries text identical
to the incoming prompt. -/
def isDuplicateResubmission (existing : List PersistedMsg) (prompt : String) : Bool :=
  match existing.getLast? with
  | none => false
  | some m =>
    m.role == "user" &&
      (match m.parts.head? with
       | none => false
       | some p =>
         match partText p with
         | none => false
         | some t => t == prompt)

/-- The user message object created for a prompt (claude.ts lines 673-677). -/
def userMessageForPrompt (prompt : String) : PersistedMsg :=
  { role := "user", parts := [MsgPart.text prompt] }

/-- The messagesToSave computation run before streaming (claude.ts lines
665-688): on duplicate resubmission the existing list is reused and no row
update runs; otherwise the new user message is appended and written back.
The second component records whether the row update (which also sets the
stream marker) ran. -/
def saveUserMessage (existing : List PersistedMsg) (prompt : String) :
    List PersistedMsg × Bool :=
  if isDuplicateResubmission existing prompt then (existing, false)
  else (existing ++ [userMessageForPrompt prompt], true)

/-- Length of the trailing run of messages satisfying p, used to state
that exactly one user message with the prompt text sits at the end of the
stored list. -/
def countTrailing (p : PersistedMsg → Bool) (l : List PersistedMsg) : Nat :=
  (l.reverse.takeWhile p).length

/-- A user message whose first part carries exactly this text (the shape
the duplicate check looks for). -/
def isUserMsgWithText (prompt : String) (m : PersistedMsg) : Bool :=
  m.role == "user" &&
    (match m.parts.head? with
     | some p => (match partText p with | some t => t == prompt | none => false)
     | none => false)

/- ===================================================================
   C2: MCP server filtering (claude.ts lines 1016-1048)
   =================================================================== -/

/-- Map.get on the per-project server-status table, modeled as an
association list with unique keys (first match wins). -/
def lookupStatus : List (String × String) → String → Option String
  | [], _ => none
  | (n, s) :: rest, name => if n = name then some s else lookupStatus rest name

/-- The filter callback of claude.ts lines 1033-1038: a server is kept
when its cached status is missing (undefined), or is neither failed nor
needs-auth. -/
def keepServer (tbl : List (String × String)) (name : String) : Bool :=
  match lookupStatus tbl name with
  | none => true
  | some status => status != "failed" && status != "needs-auth"

/-- Embedding of the mcpServersFiltered computation (claude.ts lines
1016-1048). servers is the ordered name list of mcpServersForSdk (server
configs abstracted away); cachedStatuses is the per-project status table,
none when the status cache has no entry for the project. A result of none
models the undefined case, in which no mcpServers option is passed to the
SDK at all. -/
def mcpServersFiltered (servers : Option (List String)) (isUsingOllama : Bool)
    (cachedStatuses : Option (List (String × String))) : Option (List String) :=
  match servers with
  | none => none
  | some srv =>
    if isUsingOllama then none
    else
      match cachedStatuses with
      | some tbl =>
        if tbl.length > 0 then some (srv.filter (keepServer tbl))
        else none
      | none => none

/-- Whether a named server ends up in the set passed to the agent. -/
def serverIncluded (r : Option (List String)) (name : String) : Bool :=
  match r with
  | none => false
  | some l => l.contains name

/- ===================================================================
   C4: plan-mode tool permission (claude.ts lines 185-188, 1262-1281)
   =================================================================== -/

/-- Case-insensitive .md suffix test: the regex test of claude.ts line
1268 (a backslash-dot md dollar pattern with the i flag). -/
def endsWithMdCI (s : List Char) : Bool :=
  match s.reverse with
  | d :: m :: dot :: _ =>
    (d == 'd' || d == 'D') && (m == 'm' || m == 'M') && dot == '.'
  | _ => false

/-- Case-sensitive literal suffix test, used only to state the claim
exactly as written (the claim speaks of paths ending in .md). -/
def endsWithLit (s t : String) : Bool :=
  s.data.reverse.take t.length == t.data.reverse

/-- The permission decision returned by the canUseTool callback. The
allow branch carries an updatedInput in the source; it is abstracted away
here because the claims only distinguish allow from deny. -/
inductive PermissionDecision where
  | allow
  | deny (message : String)
deriving DecidableEq

/-- Tools denied outright in plan mode (claude.ts lines 185-188). -/
def PLAN_MODE_BLOCKED_TOOLS : List String := ["Bash", "NotebookEdit"]

/-- Plan-mode denial message for non-markdown edits (claude.ts line 1272). -/
def planModeMdMessage : String := "Only \".md\" files can be modified in plan mode."

/-- Plan-mode denial message for blocked tools (claude.ts line 1278). -/
def planModeBlockedMessage (toolName : String) : String :=
  "Tool \"" ++ toolName ++ "\" blocked in plan mode."

/-- Embedding of the canUseTool permission decision (claude.ts lines
1262-1281 together with the final allow at lines 1359-1362), for the
non-Ollama path and tools other than AskUserQuestion (whose interactive
branch is modeled separately for the Approval Gate). filePath is the
file_path field of the tool input when that field is a string; the source
substitutes the empty string otherwise. -/
def canUseToolDecision (mode : String) (toolName : String)
    (filePath : Option String) : PermissionDecision :=
  if mode == "plan" then
    if toolName == "Edit" || toolName == "Write" then
      let fp := match filePath with | some s => s | none => ""
      if endsWithMdCI fp.data then PermissionDecision.allow
      else PermissionDecision.deny planModeMdMessage
    else if PLAN_MODE_BLOCKED_TOOLS.contains toolName then
      PermissionDecision.deny (planModeBlockedMessage toolName)
    else PermissionDecision.allow
  else PermissionDecision.allow

/- ===================================================================
   C10: Ollama inline-history truncation (claude.ts lines 1136-1147)
   =================================================================== -/

/-- Truncation marker named by the spec, exactly as quoted there, without
the blank line the code appends after it. -/
def truncationMarker : List Char := "...(earlier messages truncated)...".data

/-- The full fixed prefix the code actually prepends (claude.ts line
1140): the marker followed by a blank line. -/
def truncationPrefixFull : List Char := truncationMarker ++ ['\n', '\n']

/-- Embedding of the Ollama history truncation (claude.ts lines
1138-1141). The join of the formatted history lines is abstracted to a
character list; JS slice with argument -10000 on a string longer than
10000 keeps exactly the last 10000 UTF-16 units, modeled as characters. -/
def truncateOllamaHistory (history : List Char) : List Char :=
  if history.length > 10000 then
    truncationPrefixFull ++ history.drop (history.length - 10000)
  else history

/- ===================================================================
   C3: Approval Gate (claude.ts lines 173-196, 1282-1357, 2074-2095)
   =================================================================== -/

/-- The decision delivered to a pending tool-approval resolver. The
updatedInput payload is abstracted away; the claims only inspect the
approved flag and the message. -/
structure ApprovalDecision where
  approved : Bool
  message : Option String
deriving DecidableEq

/-- The 60-second AskUserQuestion timeout (claude.ts line 1306). -/
def APPROVAL_TIMEOUT_MS : Nat := 60000

/-- Chunks the gate machinery emits for one tool invocation: the question
chunk, the timeout notification (type ask-user-question-timeout), and the
result notification (type ask-user-question-result) that the canUseTool
continuation emits once the promise resolves. -/
inductive GateChunk where
  | askUserQuestion
  | askTimeout
  | askResult (deniedMessage : Option String)
deriving DecidableEq

/-- Gate state for a single AskUserQuestion invocation id: whether an
entry is still present in pendingToolApprovals, whether the setTimeout
timer is still armed (neither fired nor cleared), every call made to the
promise resolver in order, and the chunks emitted so far. -/
structure GateState where
  pending : Bool
  timerArmed : Bool
  resolutions : List ApprovalDecision
  emitted : List GateChunk
deriving DecidableEq

/-- Gate state right after canUseTool emits the question and registers the
invocation (claude.ts lines 1285-1314): question chunk emitted, entry
stored, timer armed. -/
def requestGate : GateState :=
  { pending := true, timerArmed := true, resolutions := [],
    emitted := [GateChunk.askUserQuestion] }

/-- The setTimeout callback that runs once APPROVAL_TIMEOUT_MS elapse with
the timer still armed (claude.ts lines 1297-1306): it deletes the pending
entry, emits the timeout notification chunk, and resolves the promise as
not approved with the message Timed out. A timer cleared by an earlier
resolution does not fire. -/
def fireTimeout (st : GateState) : GateState :=
  if st.timerArmed then
    { st with
        pending := false
        timerArmed := false
        emitted := st.emitted ++ [GateChunk.askTimeout]
        resolutions := st.resolutions ++ [⟨false, some ("Timed out")⟩] }
  else st

/-- respondToolApproval (claude.ts lines 2074-2095): looks up the pending
entry; when absent it returns ok false and changes nothing; when present
it calls the stored resolver — which clears the timer and resolves the
promise — and deletes the entry, returning ok true. -/
def respondApprovalGate (st : GateState) (d : ApprovalDecision) :
    GateState × Bool :=
  if st.pending then
    ({ st with
        pending := false
        timerArmed := false
        resolutions := st.resolutions ++ [d] }, true)
  else (st, false)

/-- The canUseTool continuation after the approval promise resolves
(claude.ts lines 1317-1357), restricted to the chunk it emits: a result
notification, carrying the denial message when not approved (the source
falls back to the text Skipped for a missing message; the JS falsiness of
an empty string is not modeled). -/
def gateContinuation (st : GateState) (d : ApprovalDecision) : GateState :=
  if d.approved then
    { st with emitted := st.emitted ++ [GateChunk.askResult none] }
  else
    { st with emitted :=
        st.emitted ++ [GateChunk.askResult (some (d.message.getD ("Skipped")))] }

/-- The complete timeout scenario for one invocation: request, timer
fires at 60 seconds with no external resolution, continuation resumes with
the timeout decision. -/
def gateTimeoutRun : GateState :=
  gateContinuation (fireTimeout requestGate) ⟨false, some ("Timed out")⟩

/-- The explicit-denial scenario: request, external denial before the
timeout, continuation resumes with the denial decision. -/
def gateDenialRun (msg : Option String) : GateState :=
  gateContinuation ((respondApprovalGate requestGate ⟨false, msg⟩).1) ⟨false, msg⟩

/- ===================================================================
   C7: renderer stream adapter (ipc-chat-transport.ts lines 179-547)
   =================================================================== -/

/-- Interactions the adapter handlers have with the ReadableStream
controller. -/
inductive ControllerCall where
  | enqueueAttempt (chunkType : String)
  | errorCall
  | closeAttempt
deriving DecidableEq

/-- State of the underlying ReadableStream controller. Per the streams
specification, enqueue and close throw on a non-readable stream while
error on a non-readable stream is a no-op. -/
inductive CtrlState where
  | readable
  | closed
  | errored
deriving DecidableEq

/-- Adapter bookkeeping: the two independent booleans of the source
(isStreamClosed, isStreamErrored), the controller state, the chunk types
actually enqueued into the stream, and the trace of controller calls. -/
structure AdapterState where
  isStreamClosed : Bool
  isStreamErrored : Bool
  ctrl : CtrlState
  enqueued : List String
  calls : List ControllerCall
deriving DecidableEq

/-- Adapter state when the subscription starts. -/
def initAdapterState : AdapterState :=
  { isStreamClosed := false, isStreamErrored := false,
    ctrl := CtrlState.readable, enqueued := [], calls := [] }

/-- Events delivered to the adapter: a subscription chunk carrying its
type string, a subscription error, subscription completion, and the abort
signal listener firing. -/
inductive AdapterEvent where
  | data (chunkType : String)
  | errorEvt
  | complete
  | abortSignal
deriving DecidableEq

/-- The onData handler (ipc-chat-transport.ts lines 202-442), restricted
to flag updates and controller interactions; the shared-UI-state atom
updates and toast calls it also performs are not modeled. An auth-error
chunk sets both flags and errors the controller, returning early; when the
stream is marked closed, every chunk type other than error returns before
the enqueue; otherwise the enqueue is attempted inside try/catch, and a
throw (enqueue on a non-readable controller) records closure, plus the
errored flag when the failure came from an errored controller. -/
def adapterOnData (st : AdapterState) (chunkType : String) : AdapterState :=
  if chunkType == "auth-error" then
    { st with
        isStreamClosed := true
        isStreamErrored := true
        calls := st.calls ++ [ControllerCall.errorCall]
        ctrl := if st.ctrl = CtrlState.readable then CtrlState.errored else st.ctrl }
  else if st.isStreamClosed && chunkType != "error" then st
  else
    if st.ctrl = CtrlState.readable then
      { st with
          enqueued := st.enqueued ++ [chunkType]
          calls := st.calls ++ [ControllerCall.enqueueAttempt chunkType] }
    else
      { st with
          isStreamClosed := true
          isStreamErrored :=
            if st.ctrl = CtrlState.errored then true else st.isStreamErrored
          calls := st.calls ++ [ControllerCall.enqueueAttempt chunkType] }

/-- The onError handler (ipc-chat-transport.ts lines 443-505): sets both
flags, then calls controller.error wrapped in try/catch. -/
def adapterOnError (st : AdapterState) : AdapterState :=
  { st with
      isStreamClosed := true
      isStreamErrored := true
      calls := st.calls ++ [ControllerCall.errorCall]
      ctrl := if st.ctrl = CtrlState.readable then CtrlState.errored else st.ctrl }

/-- The onComplete handler (ipc-chat-transport.ts lines 506-532): marks
the stream closed, and calls controller.close only when the stream has not
been marked errored; a close that still fails on an errored controller is
caught and recorded in the errored flag. -/
def adapterOnComplete (st : AdapterState) : AdapterState :=
  let st1 := { st with isStreamClosed := true }
  if st1.isStreamErrored then st1
  else if st1.ctrl = CtrlState.readable then
    { st1 with calls := st1.calls ++ [ControllerCall.closeAttempt],
               ctrl := CtrlState.closed }
  else if st1.ctrl = CtrlState.errored then
    { st1 with calls := st1.calls ++ [ControllerCall.closeAttempt],
               isStreamErrored := true }
  else
    { st1 with calls := st1.calls ++ [ControllerCall.closeAttempt] }

/-- The abort listener (ipc-chat-transport.ts lines 537-547): marks the
stream closed, unsubscribes and issues the cancel mutation (not modeled),
then always attempts a defensive controller.close wrapped in try/catch. -/
def adapterOnAbort (st : AdapterState) : AdapterState :=
  let st1 := { st with isStreamClosed := true }
  if st1.ctrl = CtrlState.readable then
    { st1 with calls := st1.calls ++ [ControllerCall.closeAttempt],
               ctrl := CtrlState.closed }
  else
    { st1 with calls := st1.calls ++ [ControllerCall.closeAttempt] }

/-- One adapter step. -/
def adapterStep (st : AdapterState) : AdapterEvent → AdapterState
  | AdapterEvent.data t => adapterOnData st t
  | AdapterEvent.errorEvt => adapterOnError st
  | AdapterEvent.complete => adapterOnComplete st
  | AdapterEvent.abortSignal => adapterOnAbort st

/-- Run the adapter over a sequence of events from the initial state. -/
def runAdapter (events : List AdapterEvent) : AdapterState :=
  events.foldl adapterStep initAdapterState

/- ===================================================================
   C1, C6: orchestrator streaming loop and finalization
   (claude.ts lines 469-2008)
   =================================================================== -/

/-- A chunk produced by the Event Transformer for one raw SDK message.
The transformer itself lives outside this router and is treated as a
black box yielding these typed chunks. -/
inductive TChunk where
  | textDelta (s : String)
  | textEnd
  | toolInput (toolCallId : String) (toolName : String)
  | toolOutput (toolCallId : String)
  | msgMetadata (sessionId : Option String)
  | sysCompactChunk (toolCallId : String) (state : String)
  | finishChunk
  | otherChunk
deriving DecidableEq

/-- A chunk emitted to the tRPC subscriber. -/
inductive UIChunk where
  | fromTransform (c : TChunk)
  | errorChunk (category : String)
  | authErrorChunk
  | finish
deriving DecidableEq

/-- A raw message yielded by the SDK stream, as the router inspects it:
whether it carries an embedded error (a type of error or a truthy error
field), whether that error classifies as an authentication failure, its
optional session id, and the chunk list the transformer derives from it. -/
structure RawMsg where
  isErrorMsg : Bool
  isAuthError : Bool
  sessionId : Option String
  chunks : List TChunk
deriving DecidableEq

/-- Events driving one streaming-loop execution: a raw message, the
per-session abort signal being set (user cancel or unsubscribe), or the
async iterator throwing (subprocess crash or any streaming exception),
which ends the stream. -/
inductive StreamEvent where
  | msg (m : RawMsg)
  | abortEvt
  | exn
deriving DecidableEq

/-- The subChats row as the router reads and writes it: serialized
message list, resumable upstream session id, in-flight stream marker. -/
structure DbRow where
  messages : List PersistedMsg
  sessionId : Option String
  streamId : Option String
deriving DecidableEq

/-- Orchestrator state during one chat subscription. metaSession models
metadata.sessionId (updated both from the session id of raw messages and
from message-metadata chunks), while currentSessionId models the shared
cleanup variable of claude.ts lines 480-481, updated only from the
session id of raw messages (lines 1580-1583) and read by the
subscription teardown. -/
structure ChatState where
  parts : List MsgPart
  currentText : String
  metaSession : Option String
  currentSessionId : Option String
  aborted : Bool
  emitted : List UIChunk
  completed : Bool
  db : DbRow
  messagesToSave : List PersistedMsg
  messageCount : Nat
  transformedCount : Nat
deriving DecidableEq

/-- Why the streaming section returned. -/
inductive RunReason where
  | ok
  | abortedEnd
  | emptyResponse
  | embeddedError
  | streamExn
deriving DecidableEq

/-- safeEmit (claude.ts lines 488-501): drops the chunk once the abort
signal is set. The unsubscribed observer case is not modeled: the
observer is assumed attached for the whole run. -/
def safeEmit (st : ChatState) (c : UIChunk) : ChatState :=
  if st.aborted then st else { st with emitted := st.emitted ++ [c] }

/-- JS whitespace test restricted to the ASCII whitespace characters,
sufficient for the trim-based flush condition and the trim call of the
mention parser on the inputs considered here. -/
def isJsWhitespace (c : Char) : Bool :=
  c == ' ' || c == '\t' || c == '\n' || c == '\r' || c == '\x0b' || c == '\x0c'

/-- Truthiness of the trimmed running text: some non-whitespace
character is present. -/
def trimNonempty (s : String) : Bool :=
  s.data.any (fun c => !(isJsWhitespace c))

/-- The parts list after flushing any remaining running text into a final
text part (the flush pattern at claude.ts lines 1874-1876 and 1927-1930,
which pushes but does not reset the buffer). -/
def flushedParts (st : ChatState) : List MsgPart :=
  if trimNonempty st.currentText then st.parts ++ [MsgPart.text st.currentText]
  else st.parts

/-- The drizzle row update drops fields whose value is undefined, so the
session id column is overwritten only when a session id was tracked. -/
def mergeSession (meta old : Option String) : Option String :=
  match meta with
  | some s => some s
  | none => old

/-- The assistant message persisted from the accumulated parts. -/
def assistantMessage (parts : List MsgPart) : PersistedMsg :=
  { role := "assistant", parts := parts }

/-- A tool-output chunk finds and mutates the first existing tool part
with its invocation id, flipping its state to result (claude.ts lines
1666-1691; the result payload itself is abstracted away). -/
def upsertToolResult : List MsgPart → String → List MsgPart
  | [], _ => []
  | p :: rest, callId =>
    match p with
    | MsgPart.tool id name _ =>
      if id = callId then MsgPart.tool id name ("result") :: rest
      else p :: upsertToolResult rest callId
    | _ => p :: upsertToolResult rest callId

/-- A compaction status chunk updates the existing compaction part with
its invocation id or appends a new one (claude.ts lines 1708-1723). -/
def upsertSysCompact : List MsgPart → String → String → List MsgPart
  | [], callId, stt => [MsgPart.sysCompact callId stt]
  | p :: rest, callId, stt =>
    match p with
    | MsgPart.sysCompact id _ =>
      if id = callId then MsgPart.sysCompact id stt :: rest
      else p :: upsertSysCompact rest callId stt
    | _ => p :: upsertSysCompact rest callId stt

/-- Accumulation of one transformed chunk into the in-progress assistant
message (claude.ts lines 1637-1724). The plan-mode ExitPlanMode early
stop and the renderer file-change notification are outside this model. -/
def applyChunk (st : ChatState) (c : TChunk) : ChatState :=
  match c with
  | TChunk.textDelta s => { st with currentText := st.currentText ++ s }
  | TChunk.textEnd =>
    if trimNonempty st.currentText then
      { st with parts := st.parts ++ [MsgPart.text st.currentText], currentText := "" }
    else st
  | TChunk.toolInput callId toolName =>
    { st with parts := st.parts ++ [MsgPart.tool callId toolName ("call")] }
  | TChunk.toolOutput callId =>
    { st with parts := upsertToolResult st.parts callId }
  | TChunk.msgMetadata sid =>
    { st with metaSession := mergeSession sid st.metaSession }
  | TChunk.sysCompactChunk callId stt =>
    { st with parts := upsertSysCompact st.parts callId stt }
  | TChunk.finishChunk => st
  | TChunk.otherChunk => st

/-- The chunk loop (claude.ts lines 1620-1736): the abort signal is
checked before each chunk; the chunk is emitted through safeEmit and
accumulated. The abort flag cannot change while one raw message is being
processed in this model, so the trailing abort checks of the source
collapse into the head check. -/
def processChunks (st : ChatState) : List TChunk → ChatState
  | [] => st
  | c :: rest =>
    if st.aborted then st
    else processChunks (applyChunk (safeEmit st (UIChunk.fromTransform c)) c) rest

/-- The embedded SDK-level error early return (claude.ts lines
1508-1577): emit an auth-error chunk for authentication failures or an
error chunk otherwise, then a finish chunk, then complete — without
flushing text or persisting the accumulated parts. The subscription
teardown that completion triggers (claude.ts lines 1990-2007, modeled by
subscriptionTeardown) afterwards clears the stream marker and writes the
tracked session id, but the accumulated parts stay discarded. Error
categories other than the auth distinction are collapsed into one. -/
def embeddedErrorReturn (st : ChatState) (m : RawMsg) : ChatState :=
  let st1 := safeEmit st
    (if m.isAuthError then UIChunk.authErrorChunk else UIChunk.errorChunk ("SDK_ERROR"))
  let st2 := safeEmit st1 UIChunk.finish
  { st2 with completed := true }

/-- The success and abort finalization (claude.ts lines 1923-1977): flush
the running text; when at least one part accumulated, append the
assistant message and write it back in one row update together with the
tracked session id and a cleared stream marker; with zero parts, clear
only the stream marker (and session id); then complete the channel. -/
def finalizeSave (st : ChatState) : ChatState :=
  let fp := flushedParts st
  if fp ≠ [] then
    { st with
        parts := fp
        db := { messages := st.messagesToSave ++ [assistantMessage fp],
                sessionId := mergeSession st.metaSession st.db.sessionId,
                streamId := none }
        completed := true }
  else
    { st with
        parts := fp
        db := { st.db with
                  sessionId := mergeSession st.metaSession st.db.sessionId,
                  streamId := none }
        completed := true }

/-- The catch block around the streaming loop (claude.ts lines
1780-1908): emit a classified error chunk unless aborted; flush the
running text; persist the assistant message only when at least one part
accumulated — with zero parts this block leaves the row untouched, and
the stream marker is then cleared by the subscription teardown that runs
at completion (claude.ts lines 1990-2007); then emit a finish chunk
through safeEmit and complete. The error classification taxonomy is
collapsed into one category here. -/
def finalizeCatch (st : ChatState) : ChatState :=
  let st1 := if st.aborted then st else safeEmit st (UIChunk.errorChunk ("STREAM_ERROR"))
  let fp := flushedParts st1
  let st2 :=
    if fp ≠ [] then
      { st1 with
          parts := fp
          db := { messages := st1.messagesToSave ++ [assistantMessage fp],
                  sessionId := mergeSession st1.metaSession st1.db.sessionId,
                  streamId := none } }
    else { st1 with parts := fp }
  let st3 := safeEmit st2 UIChunk.finish
  { st3 with completed := true }

/-- After the streaming loop exits without throwing (claude.ts lines
1911-1977): the empty-response check emits an error and a finish chunk
and completes with the row untouched; every other exit runs the
finalization. -/
def afterLoop (st : ChatState) : ChatState × RunReason :=
  if st.messageCount = 0 ∧ st.aborted = false then
    let st1 := safeEmit st (UIChunk.errorChunk ("EMPTY_RESPONSE"))
    let st2 := safeEmit st1 UIChunk.finish
    ({ st2 with completed := true }, RunReason.emptyResponse)
  else
    (finalizeSave st, if st.aborted then RunReason.abortedEnd else RunReason.ok)

/-- The streaming section (claude.ts lines 1448-1752 followed by the
post-loop logic): events are processed in order; the abort signal takes
effect at the loop head before any processing of the next raw message;
an embedded SDK-level error returns early; an iterator exception runs
the catch block. Every exit then completes the channel, which triggers
the subscription teardown — that final row update is modeled separately
by subscriptionTeardown and composed in runSession. -/
def runEvents (st : ChatState) : List StreamEvent → ChatState × RunReason
  | [] => afterLoop st
  | StreamEvent.abortEvt :: rest => runEvents { st with aborted := true } rest
  | StreamEvent.exn :: _ => (finalizeCatch st, RunReason.streamExn)
  | StreamEvent.msg m :: rest =>
    if st.aborted then afterLoop st
    else if m.isErrorMsg then
      (embeddedErrorReturn { st with messageCount := st.messageCount + 1 } m,
       RunReason.embeddedError)
    else
      runEvents
        (processChunks
          { st with
              messageCount := st.messageCount + 1,
              metaSession := mergeSession m.sessionId st.metaSession,
              currentSessionId := mergeSession m.sessionId st.currentSessionId,
              transformedCount := st.transformedCount + 1 }
          m.chunks) rest

/-- The subscription teardown (claude.ts lines 1990-2007), which the
tRPC observable runs synchronously when the subscription completes — on
every exit of the streaming section: it unconditionally clears the
stream marker and writes the tracked session id back when one was
captured. Its other effects (aborting the controller, dropping the
active-session entry, sweeping pending approvals, marking the observer
inactive) have no further effect on this state once the streaming
section has returned and are modeled with the Approval Gate. -/
def subscriptionTeardown (st : ChatState) : ChatState :=
  { st with
      db := { st.db with
                streamId := none,
                sessionId := mergeSession st.currentSessionId st.db.sessionId } }

/-- One complete run of the streaming section from a given state,
teardown included. -/
def runSession (st : ChatState) (events : List StreamEvent) :
    ChatState × RunReason :=
  (subscriptionTeardown (runEvents st events).1, (runEvents st events).2)

/-- Orchestrator state at the start of streaming, after the duplicate
check and the initial row write of claude.ts lines 659-688 (db0 is the
stored row before this chat message; the initial write sets the messages
and the stream marker but not the session id, and is skipped entirely on
duplicate resubmission). -/
def initChatState (db0 : DbRow) (prompt : String) (streamId : String) : ChatState :=
  let saved := saveUserMessage db0.messages prompt
  { parts := [], currentText := "", metaSession := none,
    currentSessionId := none, aborted := false,
    emitted := [], completed := false,
    messagesToSave := saved.1,
    db := if saved.2 then
            { messages := saved.1, sessionId := db0.sessionId, streamId := some streamId }
          else db0,
    messageCount := 0, transformedCount := 0 }

/-- One full chat run at the chunk level: initial row write, the
streaming section over the given events, and the subscription
teardown. -/
def chatRun (db0 : DbRow) (prompt : String) (streamId : String)
    (events : List StreamEvent) : ChatState × RunReason :=
  runSession (initChatState db0 prompt streamId) events

/-- The contract of the streaming section alone, before the subscription
teardown completes the row update (the end-to-end contract is
SessionFinalizationSpec): every path completes the subscription; the
embedded-SDK-error and empty-response early returns leave the row
untouched — the teardown finishes it — while still emitting a finish
chunk; the exception path persists the flushed parts exactly when at
least one part accumulated, leaves the row to the teardown otherwise,
and emits its finish chunk only while not aborted; the normal and abort
exits always clear the stream marker and write the session id, appending
the assistant message exactly when at least one part accumulated; and on
every non-early-return path a running text with visible content has been
flushed into the parts. -/
def FinalizationSpec (st : ChatState) (r : ChatState × RunReason) : Prop :=
  r.1.completed = true ∧
  (r.2 = RunReason.embeddedError →
      r.1.db = st.db ∧ UIChunk.finish ∈ r.1.emitted) ∧
  (r.2 = RunReason.emptyResponse →
      r.1.db = st.db ∧ UIChunk.finish ∈ r.1.emitted) ∧
  (r.2 = RunReason.streamExn →
      (r.1.parts ≠ [] →
          r.1.db.messages = st.messagesToSave ++ [assistantMessage r.1.parts] ∧
          r.1.db.sessionId = mergeSession r.1.metaSession st.db.sessionId ∧
          r.1.db.streamId = none) ∧
      (r.1.parts = [] → r.1.db = st.db) ∧
      (r.1.aborted = false → UIChunk.finish ∈ r.1.emitted)) ∧
  ((r.2 = RunReason.ok ∨ r.2 = RunReason.abortedEnd) →
      r.1.db.streamId = none ∧
      r.1.db.sessionId = mergeSession r.1.metaSession st.db.sessionId ∧
      (r.1.parts ≠ [] →
          r.1.db.messages = st.messagesToSave ++ [assistantMessage r.1.parts]) ∧
      (r.1.parts = [] → r.1.db.messages = st.db.messages)) ∧
  (r.2 ≠ RunReason.embeddedError → r.2 ≠ RunReason.emptyResponse →
      trimNonempty r.1.currentText = true → r.1.parts ≠ [])

/-- The end-to-end contract of one chat subscription, subscription
teardown included, relating the final state and return reason r to the
entry state st: every exit completes the subscription and clears the
stream marker, and writes the session id tracked from the raw messages;
the normal, user-abort and exception exits append the flushed parts as
one assistant message exactly when at least one part accumulated; the
embedded-SDK-error and empty-response early returns append nothing —
accumulated partial progress is discarded there — while still emitting a
finish chunk; the exception path emits its finish chunk only while not
aborted; and on every non-early-return path a running text with visible
content has been flushed into the parts. -/
def SessionFinalizationSpec (st : ChatState) (r : ChatState × RunReason) : Prop :=
  r.1.completed = true ∧
  r.1.db.streamId = none ∧
  (r.2 = RunReason.embeddedError →
      r.1.db.messages = st.db.messages ∧
      r.1.db.sessionId = mergeSession r.1.currentSessionId st.db.sessionId ∧
      UIChunk.finish ∈ r.1.emitted) ∧
  (r.2 = RunReason.emptyResponse →
      r.1.db.messages = st.db.messages ∧
      r.1.db.sessionId = mergeSession r.1.currentSessionId st.db.sessionId ∧
      UIChunk.finish ∈ r.1.emitted) ∧
  (r.2 = RunReason.streamExn →
      (r.1.parts ≠ [] →
          r.1.db.messages = st.messagesToSave ++ [assistantMessage r.1.parts] ∧
          r.1.db.sessionId
            = mergeSession r.1.currentSessionId
                (mergeSession r.1.metaSession st.db.sessionId)) ∧
      (r.1.parts = [] →
          r.1.db.messages = st.db.messages ∧
          r.1.db.sessionId = mergeSession r.1.currentSessionId st.db.sessionId) ∧
      (r.1.aborted = false → UIChunk.finish ∈ r.1.emitted)) ∧
  ((r.2 = RunReason.ok ∨ r.2 = RunReason.abortedEnd) →
      r.1.db.sessionId
        = mergeSession r.1.currentSessionId
            (mergeSession r.1.metaSession st.db.sessionId) ∧
      (r.1.parts ≠ [] →
          r.1.db.messages = st.messagesToSave ++ [assistantMessage r.1.parts]) ∧
      (r.1.parts = [] → r.1.db.messages = st.db.messages)) ∧
  (r.2 ≠ RunReason.embeddedError → r.2 ≠ RunReason.emptyResponse →
      trimNonempty r.1.currentText = true → r.1.parts ≠ [])

/- ===================================================================
   C8, C9: mention parser (claude.ts lines 28-89)
   =================================================================== -/

/-- The five mention kinds of the parser regex alternation. -/
inductive MKind where
  | file
  | folder
  | skill
  | agent
  | tool
deriving DecidableEq

/-- The literal kind word of each mention kind. -/
def kindWord : MKind → List Char
  | MKind.file => "file".data
  | MKind.folder => "folder".data
  | MKind.skill => "skill".data
  | MKind.agent => "agent".data
  | MKind.tool => "tool".data

/-- The kinds in the alternation order of the extraction regex. -/
def mentionKinds : List MKind :=
  [MKind.file, MKind.folder, MKind.skill, MKind.agent, MKind.tool]

/-- Matches a literal character sequence at the head of the input,
returning the remainder. -/
def dropLit : List Char → List Char → Option (List Char)
  | [], cs => some cs
  | _ :: _, [] => none
  | p :: ps, c :: cs => if c = p then dropLit ps cs else none

/-- Splits the input at the first closing bracket: the characters before
it (none of which is a closing bracket) and the remainder after it. The
greedy negated character class of the regex followed by the required
closing bracket matches exactly up to the first closing bracket. -/
def splitAtRB : List Char → Option (List Char × List Char)
  | [] => none
  | c :: cs =>
    if c = ']' then some ([], cs)
    else
      match splitAtRB cs with
      | none => none
      | some (n, r) => some (c :: n, r)

/-- Tries the kind words of an alternation in order, each followed by a
colon. -/
def tryKinds : List MKind → List Char → Option (MKind × List Char)
  | [], _ => none
  | k :: ks, cs =>
    match dropLit (kindWord k ++ [':']) cs with
    | some r => some (k, r)
    | none => tryKinds ks cs

/-- The extraction-regex match at the head of the input: an at sign, an
opening bracket, a kind word with its colon, a nonempty name running to
the first closing bracket, and that closing bracket. -/
def tryMention (cs : List Char) : Option (MKind × List Char × List Char) :=
  match dropLit ['@', '['] cs with
  | none => none
  | some r1 =>
    match tryKinds mentionKinds r1 with
    | none => none
    | some (k, r2) =>
      match splitAtRB r2 with
      | none => none
      | some (name, rest) => if name = [] then none else some (k, name, rest)

/-- The single-kind match of one removal regex (claude.ts lines 74-76),
returning the remainder after the matched token. -/
def tryMentionK (k : MKind) (cs : List Char) : Option (List Char) :=
  match dropLit ('@' :: '[' :: (kindWord k ++ [':'])) cs with
  | none => none
  | some r =>
    match splitAtRB r with
    | none => none
    | some (name, rest) => if name = [] then none else some rest

/-- Fueled scan of the whole input with the extraction regex: at each
position try a match; on success record kind and name and continue after
the match, otherwise advance one character. Every step consumes at least
one character, so the input length is sufficient fuel. -/
def scanAux : Nat → List Char → List (MKind × List Char)
  | 0, _ => []
  | _, [] => []
  | fuel + 1, c :: cs =>
    match tryMention (c :: cs) with
    | some (k, n, rest) => (k, n) :: scanAux fuel rest
    | none => scanAux fuel cs

/-- All mention matches of the input in order: the exec loop of
claude.ts lines 43-69 before the per-kind dispatch. -/
def scanMentions (cs : List Char) : List (MKind × List Char) :=
  scanAux cs.length cs

/-- Fueled removal of all matches of one kind: one replace call of
claude.ts lines 73-76. -/
def removeAux (k : MKind) : Nat → List Char → List Char
  | 0, cs => cs
  | _, [] => []
  | fuel + 1, c :: cs =>
    match tryMentionK k (c :: cs) with
    | some rest => removeAux k fuel rest
    | none => c :: removeAux k fuel cs

/-- Removal of all tokens of one kind from the input. -/
def removeKind (k : MKind) (cs : List Char) : List Char :=
  removeAux k cs.length cs

/-- JS trim over the modeled whitespace set. -/
def jsTrim (cs : List Char) : List Char :=
  ((cs.dropWhile isJsWhitespace).reverse.dropWhile isJsWhitespace).reverse

/-- One character of the tool-name validation character class: Latin
letter, digit, underscore or hyphen (claude.ts line 64). -/
def isToolChar (c : Char) : Bool :=
  ('a' ≤ c && c ≤ 'z') || ('A' ≤ c && c ≤ 'Z') || ('0' ≤ c && c ≤ '9')
    || c = '_' || c = '-'

/-- The tool-name validation regex: one or more characters of the
class. -/
def validToolName (n : List Char) : Bool :=
  !n.isEmpty && n.all isToolChar

/-- The hint sentence added per mentioned tool (claude.ts line 83). -/
def toolHintSentence (t : List Char) : List Char :=
  "Use the ".data ++ t ++ " tool for this request.".data

/-- The hint block prepended when validated tool mentions exist
(claude.ts lines 81-86): the sentences joined by single spaces, followed
by a blank line; empty when there is no tool mention. -/
def toolHintBlock (ts : List (List Char)) : List Char :=
  if ts = [] then []
  else List.intercalate [' '] (ts.map toolHintSentence) ++ ['\n', '\n']

/-- The result record of parseMentions. -/
structure ParsedMentions where
  cleanedPrompt : List Char
  agentMentions : List (List Char)
  skillMentions : List (List Char)
  fileMentions : List (List Char)
  folderMentions : List (List Char)
  toolMentions : List (List Char)
deriving DecidableEq

/-- The switch of the exec loop (claude.ts lines 48-68): pushes the name
onto the list of its kind; a tool name is pushed only when it passes the
validation regex, and an invalid tool name is dropped silently while the
scan continues. -/
def pushMention (acc : ParsedMentions) (m : MKind × List Char) : ParsedMentions :=
  match m.1 with
  | MKind.agent => { acc with agentMentions := acc.agentMentions ++ [m.2] }
  | MKind.skill => { acc with skillMentions := acc.skillMentions ++ [m.2] }
  | MKind.file => { acc with fileMentions := acc.fileMentions ++ [m.2] }
  | MKind.folder => { acc with folderMentions := acc.folderMentions ++ [m.2] }
  | MKind.tool =>
    if validToolName m.2 then { acc with toolMentions := acc.toolMentions ++ [m.2] }
    else acc

/-- Embedding of parseMentions (claude.ts lines 28-89): scan for all
mentions and dispatch them by kind; remove agent tokens, then skill
tokens, then tool tokens by three successive replace passes; trim; and
when validated tool mentions exist prepend the hint block. -/
def parseMentions (prompt : List Char) : ParsedMentions :=
  let acc := (scanMentions prompt).foldl pushMention
    { cleanedPrompt := [], agentMentions := [], skillMentions := [],
      fileMentions := [], folderMentions := [], toolMentions := [] }
  let cleaned0 :=
    jsTrim (removeKind MKind.tool (removeKind MKind.skill (removeKind MKind.agent prompt)))
  let cleaned :=
    if acc.toolMentions ≠ [] then toolHintBlock acc.toolMentions ++ cleaned0
    else cleaned0
  { acc with cleanedPrompt := cleaned }

/-- A decomposition of an input into plain text and well-formed mention
tokens, used to state the amended parsing claim. -/
inductive MSeg where
  | plain (s : List Char)
  | tok (k : MKind) (name : List Char)
deriving DecidableEq

/-- The concrete text of one segment. -/
def renderSeg : MSeg → List Char
  | MSeg.plain s => s
  | MSeg.tok k n => '@' :: '[' :: (kindWord k ++ ':' :: (n ++ [']']))

/-- The concrete text of a segment list. -/
def renderSegs (ss : List MSeg) : List Char :=
  (ss.map renderSeg).flatten

/-- Well-formedness: plain segments contain no at sign (so they cannot
start or continue a mention), and names are nonempty and contain neither
an at sign nor a closing bracket. -/
def wfSeg : MSeg → Prop
  | MSeg.plain s => '@' ∉ s
  | MSeg.tok _ n => n ≠ [] ∧ '@' ∉ n ∧ ']' ∉ n

/-- The token names of one kind, in order. -/
def segNames (k : MKind) (ss : List MSeg) : List (List Char) :=
  ss.filterMap (fun s =>
    match s with
    | MSeg.tok k2 n => if k2 = k then some n else none
    | MSeg.plain _ => none)

/-- The segments whose text survives the cleaning passes: plain text and
file and folder tokens. -/
def keepSeg (s : MSeg) : Bool :=
  match s with
  | MSeg.plain _ => true
  | MSeg.tok MKind.file _ => true
  | MSeg.tok MKind.folder _ => true
  | MSeg.tok _ _ => false

/-- The names carried by the scanned matches of one kind, in order. -/
def mentionsOf (k : MKind) (ms : List (MKind × List Char)) : List (List Char) :=
  ms.filterMap (fun m => if m.1 = k then some m.2 else none)

instance (s : MSeg) : Decidable (wfSeg s) :=
  match s with
  | MSeg.plain p => (inferInstance : Decidable ('@' ∉ p))
  | MSeg.tok _ n => (inferInstance : Decidable (n ≠ [] ∧ '@' ∉ n ∧ ']' ∉ n))

/- ===================================================================
   Theorems
   =================================================================== -/

/-- C5: for every session whose last stored message is a user message
with text identical to the incoming prompt, sending that prompt again
reuses the existing message instead of appending a second user message:
the stored list is unchanged (and no row write runs), so a single trailing
user message with that text remains a single trailing user message. -/
theorem C5_duplicate_suppression (existing : List PersistedMsg) (prompt : String)
    (hdup : isDuplicateResubmission existing prompt = true) :
    saveUserMessage existing prompt = (existing, false) ∧
    (countTrailing (isUserMsgWithText prompt) existing = 1 →
      countTrailing (isUserMsgWithText prompt) (saveUserMessage existing prompt).1 = 1) := by
  refine ⟨by simp [saveUserMessage, hdup], ?_⟩
  intro h1
  simp [saveUserMessage, hdup, h1]

/-- C5 witness: a concrete session whose last (and only) stored message is
the user message for the prompt, resubmitted. -/
theorem C5_duplicate_suppression_witness :
    isDuplicateResubmission [userMessageForPrompt ("hi")] ("hi") = true ∧
    saveUserMessage [userMessageForPrompt ("hi")] ("hi")
      = ([userMessageForPrompt ("hi")], false) :=
  ⟨by decide,
   (C5_duplicate_suppression [userMessageForPrompt ("hi")] ("hi") (by decide)).1⟩

/-- C2 counterexample: for a project with no cached statuses at all, an
unknown server is not included — the whole mcpServers option is dropped
(claude.ts lines 1040-1044) — contradicting the claim that a server whose
status is missing from the cache is always included. -/
theorem C2_counterexample :
    serverIncluded (mcpServersFiltered (some ["serverD"]) false none) ("serverD")
      = false := by
  decide

/-- C2 (amended): provided the status cache holds at least one entry for
the project, a configured server is included if and only if its cached
status is neither exactly failed nor exactly needs-auth (unknown or
missing status is included); and on the concrete table of the claim the
filtered set is exactly serverC and serverD. When the project has no
cached statuses at all, every server is excluded wholesale (see the
counterexample). -/
theorem C2_mcp_filtering (srv : List String) (tbl : List (String × String))
    (htbl : tbl ≠ []) :
    (∀ name ∈ srv,
      (serverIncluded (mcpServersFiltered (some srv) false (some tbl)) name = true
        ↔ (lookupStatus tbl name ≠ some ("failed") ∧
           lookupStatus tbl name ≠ some ("needs-auth")))) ∧
    mcpServersFiltered (some ["serverA", "serverB", "serverC", "serverD"]) false
        (some [("serverA", "failed"), ("serverB", "needs-auth"), ("serverC", "healthy")])
      = some ["serverC", "serverD"] := by
  constructor
  · intro name hmem
    have hlen : tbl.length > 0 := List.length_pos.mpr htbl
    have hfil : mcpServersFiltered (some srv) false (some tbl)
        = some (srv.filter (keepServer tbl)) := by
      unfold mcpServersFiltered
      simp [hlen]
    rw [hfil]
    simp only [serverIncluded]
    rw [show ((srv.filter (keepServer tbl)).contains name = true)
        = (name ∈ srv.filter (keepServer tbl)) by simp]
    rw [List.mem_filter]
    simp only [hmem, true_and]
    unfold keepServer
    cases hls : lookupStatus tbl name with
    | none => simp
    | some status => simp [bne_iff_ne]
  · decide

/-- C2 witness: the amended filtering applied to a concrete one-entry
table: the unknown serverD is included. -/
theorem C2_mcp_filtering_witness :
    serverIncluded
        (mcpServersFiltered (some ["serverC", "serverD"]) false
          (some [("serverC", "healthy")])) ("serverD") = true :=
  ((C2_mcp_filtering ["serverC", "serverD"] [("serverC", "healthy")]
      (by decide)).1 ("serverD") (by decide)).mpr (by decide)

/-- C4 counterexample: the path a.MD does not end in the literal suffix
.md, yet an Edit on it is allowed in plan mode, because the source tests
the suffix case-insensitively (claude.ts line 1268). -/
theorem C4_counterexample :
    endsWithLit ("a.MD") (".md") = false ∧
    canUseToolDecision ("plan") ("Edit") (some ("a.MD")) = PermissionDecision.allow := by
  decide

/-- C4 (amended): in plan mode, a Bash tool call is denied; an Edit or
Write whose file_path does not end in .md compared case-insensitively is
denied; and an Edit whose file_path ends in .md case-insensitively is
allowed. -/
theorem C4_plan_mode_restriction :
    (∀ fp : Option String, canUseToolDecision ("plan") ("Bash") fp
        = PermissionDecision.deny (planModeBlockedMessage ("Bash"))) ∧
    (∀ fp : String, endsWithMdCI fp.data = false →
        canUseToolDecision ("plan") ("Edit") (some fp)
            = PermissionDecision.deny planModeMdMessage ∧
        canUseToolDecision ("plan") ("Write") (some fp)
            = PermissionDecision.deny planModeMdMessage) ∧
    (∀ fp : String, endsWithMdCI fp.data = true →
        canUseToolDecision ("plan") ("Edit") (some fp) = PermissionDecision.allow) := by
  refine ⟨?_, ?_, ?_⟩
  · intro fp
    simp [canUseToolDecision, PLAN_MODE_BLOCKED_TOOLS]
  · intro fp hmd
    constructor <;> simp [canUseToolDecision, hmd]
  · intro fp hmd
    simp [canUseToolDecision, hmd]

/-- C4 witness: concrete decisions in plan mode — Bash denied, Edit on a
TypeScript path denied, Edit on a markdown path allowed. -/
theorem C4_plan_mode_restriction_witness :
    canUseToolDecision ("plan") ("Bash") none
        = PermissionDecision.deny (planModeBlockedMessage ("Bash")) ∧
    canUseToolDecision ("plan") ("Edit") (some ("src/a.ts"))
        = PermissionDecision.deny planModeMdMessage ∧
    canUseToolDecision ("plan") ("Edit") (some ("notes.md"))
        = PermissionDecision.allow :=
  ⟨C4_plan_mode_restriction.1 none,
   (C4_plan_mode_restriction.2.1 ("src/a.ts") (by decide)).1,
   C4_plan_mode_restriction.2.2 ("notes.md") (by decide)⟩

/-- C10 counterexample: on a history of 10001 characters the code output
is the marker, a blank line, and the last 10000 characters — two
characters longer than the 10000-plus-marker bound the claim states, and
not equal to the marker directly followed by the last 10000 characters. -/
theorem C10_counterexample :
    (truncateOllamaHistory (List.replicate 10001 'a')).length
        = 10000 + truncationMarker.length + 2 ∧
    truncateOllamaHistory (List.replicate 10001 'a')
        ≠ truncationMarker ++ (List.replicate 10001 'a').drop 1 := by
  have hmark : truncationMarker.length = 34 := by decide
  have hpre : truncationPrefixFull.length = 36 := by decide
  have hrep : (List.replicate 10001 'a').length = 10001 := List.length_replicate 10001 'a'
  have hcond : (List.replicate 10001 'a').length > 10000 := by rw [hrep]; norm_num
  have hlen : (truncateOllamaHistory (List.replicate 10001 'a')).length = 10036 := by
    unfold truncateOllamaHistory
    rw [if_pos hcond, List.length_append, List.length_drop, hpre, hrep]
  constructor
  · rw [hlen, hmark]
  · intro h
    have hcl := congrArg List.length h
    rw [hlen, List.length_append, List.length_drop, hmark, hrep] at hcl
    norm_num at hcl

/-- C10 (amended): whenever the joined history exceeds 10000 characters,
the code keeps exactly the last 10000 characters (a suffix of the
history), prepends the fixed marker followed by a blank line, and the
result length is exactly the length of that fixed prefix plus 10000. -/
theorem C10_ollama_history_truncation (history : List Char)
    (h : history.length > 10000) :
    truncateOllamaHistory history
        = truncationPrefixFull ++ history.drop (history.length - 10000) ∧
    (history.drop (history.length - 10000)).length = 10000 ∧
    (truncateOllamaHistory history).length = truncationPrefixFull.length + 10000 ∧
    history.drop (history.length - 10000) <:+ history := by
  have hdrop : (history.drop (history.length - 10000)).length = 10000 := by
    rw [List.length_drop]
    omega
  have h1 : truncateOllamaHistory history
      = truncationPrefixFull ++ history.drop (history.length - 10000) := by
    unfold truncateOllamaHistory
    rw [if_pos h]
  refine ⟨h1, hdrop, ?_, List.drop_suffix _ _⟩
  rw [h1, List.length_append, hdrop]

/-- C10 witness: the truncation applied to a concrete overlong history. -/
theorem C10_ollama_history_truncation_witness :
    (List.replicate 10001 'a').length > 10000 ∧
    (truncateOllamaHistory (List.replicate 10001 'a')).length
        = truncationPrefixFull.length + 10000 :=
  ⟨by rw [List.length_replicate]; norm_num,
   (C10_ollama_history_truncation (List.replicate 10001 'a')
     (by rw [List.length_replicate]; norm_num)).2.2.1⟩

/-- C3: an AskUserQuestion gate request with no external resolution within
the 60-second timeout resolves exactly once, as not approved with the
message Timed out; a timeout notification chunk is emitted, and the
timeout scenario is distinguishable from an explicit denial because only
it contains the dedicated timeout chunk; a later external resolution of
the same invocation id reports ok false and does not resolve the promise
a second time; and a resolution that arrives before the timeout clears the
timer, so the later timer firing adds no second resolution. -/
theorem C3_approval_timeout (d : ApprovalDecision) :
    APPROVAL_TIMEOUT_MS = 60000 ∧
    (fireTimeout requestGate).resolutions = [⟨false, some ("Timed out")⟩] ∧
    GateChunk.askTimeout ∈ gateTimeoutRun.emitted ∧
    (∀ msg : Option String, GateChunk.askTimeout ∉ (gateDenialRun msg).emitted) ∧
    (respondApprovalGate (fireTimeout requestGate) d).2 = false ∧
    (respondApprovalGate (fireTimeout requestGate) d).1 = fireTimeout requestGate ∧
    (respondApprovalGate requestGate d).1.resolutions = [d] ∧
    fireTimeout ((respondApprovalGate requestGate d).1)
      = (respondApprovalGate requestGate d).1 := by
  refine ⟨rfl, by decide, by decide, ?_, ?_, ?_, ?_, ?_⟩
  · intro msg
    simp [gateDenialRun, gateContinuation, respondApprovalGate, requestGate]
  · simp [respondApprovalGate, fireTimeout, requestGate]
  · simp [respondApprovalGate, fireTimeout, requestGate]
  · simp [respondApprovalGate, requestGate]
  · simp [respondApprovalGate, fireTimeout, requestGate]

/-- C7 counterexample: after a subscription error marks the stream
closed-due-to-error, the abort listener still calls close on the stream
controller (a defensive close wrapped in try/catch), so the adapter as a
whole does call a normal close on an errored stream; the never-close
guarantee belongs to the completion handler only. -/
theorem C7_counterexample :
    (runAdapter [AdapterEvent.errorEvt]).isStreamErrored = true ∧
    ControllerCall.closeAttempt
      ∈ (runAdapter [AdapterEvent.errorEvt, AdapterEvent.abortSignal]).calls := by
  decide

/-- C7 (amended): once the stream is marked closed, every received chunk
whose type is neither error nor auth-error is dropped completely (the
handler returns the state unchanged: nothing is enqueued and nothing
throws), while error chunks are still attempted (the enqueue call is made
even on a closed stream); an auth-error chunk is likewise still acted on
(it errors the controller rather than enqueueing). Once the stream is
marked closed-due-to-error, the completion handler performs no controller
call at all; the abort listener, by contrast, always attempts a defensive
close. -/
theorem C7_stream_adapter_flags (st : AdapterState) :
    (∀ t : String, st.isStreamClosed = true → t ≠ "error" → t ≠ "auth-error" →
        adapterOnData st t = st) ∧
    (st.isStreamClosed = true →
        (adapterOnData st ("error")).calls
          = st.calls ++ [ControllerCall.enqueueAttempt ("error")]) ∧
    (st.isStreamClosed = true →
        (adapterOnData st ("auth-error")).calls
          = st.calls ++ [ControllerCall.errorCall]) ∧
    (st.isStreamErrored = true →
        (adapterOnComplete st).calls = st.calls ∧
        (adapterOnComplete st).isStreamClosed = true) ∧
    (adapterOnAbort st).calls = st.calls ++ [ControllerCall.closeAttempt] := by
  refine ⟨?_, ?_, ?_, ?_, ?_⟩
  · intro t hclosed hterr htauth
    simp only [adapterOnData, hclosed]
    rw [if_neg (by simpa using htauth)]
    rw [if_pos (by simpa using hterr)]
  · intro hclosed
    simp [adapterOnData]
    rcases hctrl : st.ctrl with h | h | h <;> simp [hctrl]
  · intro hclosed
    simp [adapterOnData]
  · intro herr
    constructor <;> simp [adapterOnComplete, herr]
  · rcases hctrl : st.ctrl with h | h | h <;> simp [adapterOnAbort, hctrl]

/-- C7 witness: the amended guarantees at concrete states — a text-delta
chunk after closure leaves the state untouched, and completion after a
subscription error makes no controller call. -/
theorem C7_stream_adapter_flags_witness :
    adapterOnData { initAdapterState with isStreamClosed := true } ("text-delta")
      = { initAdapterState with isStreamClosed := true } ∧
    (adapterOnComplete (adapterOnError initAdapterState)).calls
      = (adapterOnError initAdapterState).calls :=
  ⟨(C7_stream_adapter_flags _).1 ("text-delta") rfl (by decide) (by decide),
   ((C7_stream_adapter_flags _).2.2.2.1 (by decide)).1⟩

/-- Projection facts about the success/abort finalization: what it leaves
unchanged and what it writes. -/
theorem finalizeSave_spec (st : ChatState) :
    (finalizeSave st).completed = true ∧
    (finalizeSave st).messagesToSave = st.messagesToSave ∧
    (finalizeSave st).emitted = st.emitted ∧
    (finalizeSave st).transformedCount = st.transformedCount ∧
    (finalizeSave st).metaSession = st.metaSession ∧
    (finalizeSave st).parts = flushedParts st ∧
    (finalizeSave st).currentText = st.currentText ∧
    (finalizeSave st).aborted = st.aborted ∧
    (finalizeSave st).db.streamId = none ∧
    (finalizeSave st).db.sessionId = mergeSession st.metaSession st.db.sessionId ∧
    (flushedParts st ≠ [] →
        (finalizeSave st).db.messages
          = st.messagesToSave ++ [assistantMessage (flushedParts st)]) ∧
    (flushedParts st = [] → (finalizeSave st).db.messages = st.db.messages) := by
  by_cases h : flushedParts st = [] <;> simp [finalizeSave, h]

/-- Projection facts about the catch-block finalization. -/
theorem finalizeCatch_spec (st : ChatState) :
    (finalizeCatch st).completed = true ∧
    (finalizeCatch st).messagesToSave = st.messagesToSave ∧
    (finalizeCatch st).transformedCount = st.transformedCount ∧
    (finalizeCatch st).metaSession = st.metaSession ∧
    (finalizeCatch st).parts = flushedParts st ∧
    (finalizeCatch st).currentText = st.currentText ∧
    (finalizeCatch st).aborted = st.aborted ∧
    (st.aborted = true → (finalizeCatch st).emitted = st.emitted) ∧
    (st.aborted = false → UIChunk.finish ∈ (finalizeCatch st).emitted) ∧
    (flushedParts st ≠ [] →
        (finalizeCatch st).db.messages
          = st.messagesToSave ++ [assistantMessage (flushedParts st)] ∧
        (finalizeCatch st).db.sessionId = mergeSession st.metaSession st.db.sessionId ∧
        (finalizeCatch st).db.streamId = none) ∧
    (flushedParts st = [] → (finalizeCatch st).db = st.db) := by
  by_cases ha : st.aborted = true <;>
    by_cases h : flushedParts st = [] <;>
      simp [finalizeCatch, safeEmit, flushedParts, ha, h] <;> simp_all [flushedParts]

/-- Projection facts about the embedded-SDK-error early return: the row
is untouched and a finish chunk is emitted. -/
theorem embeddedErrorReturn_spec (st : ChatState) (m : RawMsg) (h : st.aborted = false) :
    (embeddedErrorReturn st m).db = st.db ∧
    (embeddedErrorReturn st m).messagesToSave = st.messagesToSave ∧
    (embeddedErrorReturn st m).completed = true ∧
    UIChunk.finish ∈ (embeddedErrorReturn st m).emitted := by
  simp [embeddedErrorReturn, safeEmit, h]

/-- Chunk accumulation never touches the row, the saved message list, the
completion flag, the message count, or the abort flag. -/
theorem applyChunk_frame (st : ChatState) (c : TChunk) :
    (applyChunk st c).db = st.db ∧
    (applyChunk st c).messagesToSave = st.messagesToSave ∧
    (applyChunk st c).completed = st.completed ∧
    (applyChunk st c).messageCount = st.messageCount ∧
    (applyChunk st c).aborted = st.aborted := by
  cases c <;> simp only [applyChunk] <;> (try split) <;> simp

/-- safeEmit only ever appends to the emitted chunk list. -/
theorem safeEmit_frame (st : ChatState) (c : UIChunk) :
    (safeEmit st c).db = st.db ∧
    (safeEmit st c).messagesToSave = st.messagesToSave ∧
    (safeEmit st c).completed = st.completed ∧
    (safeEmit st c).messageCount = st.messageCount ∧
    (safeEmit st c).aborted = st.aborted := by
  unfold safeEmit
  split <;> simp

/-- The chunk loop never touches the row, the saved message list, the
completion flag, or the message count. -/
theorem processChunks_frame (st : ChatState) (cs : List TChunk) :
    (processChunks st cs).db = st.db ∧
    (processChunks st cs).messagesToSave = st.messagesToSave ∧
    (processChunks st cs).completed = st.completed ∧
    (processChunks st cs).messageCount = st.messageCount := by
  induction cs generalizing st with
  | nil => exact ⟨rfl, rfl, rfl, rfl⟩
  | cons c rest ih =>
    unfold processChunks
    by_cases h : st.aborted = true
    · simp [h]
    · rw [if_neg h]
      obtain ⟨h1, h2, h3, h4⟩ := ih (applyChunk (safeEmit st (UIChunk.fromTransform c)) c)
      obtain ⟨a1, a2, a3, a4, a5⟩ := applyChunk_frame (safeEmit st (UIChunk.fromTransform c)) c
      obtain ⟨s1, s2, s3, s4, s5⟩ := safeEmit_frame st (UIChunk.fromTransform c)
      exact ⟨h1.trans (a1.trans s1), h2.trans (a2.trans s2),
             h3.trans (a3.trans s3), h4.trans (a4.trans s4)⟩

/-- C6: during streaming the abort signal is checked at the loop head
before any processing, and once the per-session abort signal is set no
further raw message is transformed and no further chunk is emitted to the
subscriber — including by safeEmit itself, which refuses to emit once the
signal is set. -/
theorem C6_abort_priority (st : ChatState) (events : List StreamEvent)
    (h : st.aborted = true) :
    (runEvents st events).1.emitted = st.emitted ∧
    (runEvents st events).1.transformedCount = st.transformedCount ∧
    (∀ c : UIChunk, safeEmit st c = st) := by
  have key : ∀ (evs : List StreamEvent) (s : ChatState), s.aborted = true →
      (runEvents s evs).1.emitted = s.emitted ∧
      (runEvents s evs).1.transformedCount = s.transformedCount := by
    intro evs
    induction evs with
    | nil =>
      intro s hs
      unfold runEvents afterLoop
      rw [if_neg (by simp [hs])]
      obtain ⟨-, -, he, ht, -⟩ := finalizeSave_spec s
      exact ⟨he, ht⟩
    | cons e rest ih =>
      intro s hs
      cases e with
      | abortEvt => simpa using ih { s with aborted := true } rfl
      | exn =>
        obtain ⟨-, -, ht, -, -, -, -, he, -⟩ := finalizeCatch_spec s
        exact ⟨he hs, ht⟩
      | msg m =>
        unfold runEvents
        rw [if_pos hs]
        unfold afterLoop
        rw [if_neg (by simp [hs])]
        obtain ⟨-, -, he, ht, -⟩ := finalizeSave_spec s
        exact ⟨he, ht⟩
  exact ⟨(key events st h).1, (key events st h).2, fun c => by simp [safeEmit, h]⟩

/-- C6 witness: a concrete aborted session processes a further raw
message without emitting anything or transforming it. -/
theorem C6_abort_priority_witness :
    ({ initChatState ⟨[], none, none⟩ ("hi") ("s1") with aborted := true } : ChatState).aborted
        = true ∧
    (runEvents { initChatState ⟨[], none, none⟩ ("hi") ("s1") with aborted := true }
        [StreamEvent.msg ⟨false, false, none, [TChunk.textDelta ("x")]⟩]).1.emitted
      = ({ initChatState ⟨[], none, none⟩ ("hi") ("s1") with aborted := true } : ChatState).emitted :=
  ⟨rfl,
   (C6_abort_priority { initChatState ⟨[], none, none⟩ ("hi") ("s1") with aborted := true }
      [StreamEvent.msg ⟨false, false, none, [TChunk.textDelta ("x")]⟩] rfl).1⟩

/-- The post-loop logic satisfies the finalization contract. -/
theorem afterLoop_spec (st : ChatState) : FinalizationSpec st (afterLoop st) := by
  unfold FinalizationSpec afterLoop
  by_cases h0 : st.messageCount = 0 ∧ st.aborted = false
  · rw [if_pos h0]
    simp [safeEmit, h0.2]
  · rw [if_neg h0]
    obtain ⟨hc, hms, hem, htc, hmeta, hparts, hct, hab, hsid, hses, himp1, himp2⟩ :=
      finalizeSave_spec st
    refine ⟨hc, ?_, ?_, ?_, ?_, ?_⟩
    · intro hr
      by_cases ha : st.aborted = true <;> simp [ha] at hr
    · intro hr
      by_cases ha : st.aborted = true <;> simp [ha] at hr
    · intro hr
      by_cases ha : st.aborted = true <;> simp [ha] at hr
    · intro _
      refine ⟨hsid, ?_, ?_, ?_⟩
      · rw [hmeta]
        exact hses
      · intro hne
        rw [hparts] at hne ⊢
        exact himp1 hne
      · intro hne
        rw [hparts] at hne
        exact himp2 hne
    · intro _ _ htrim
      rw [hct] at htrim
      rw [hparts]
      simp [flushedParts, htrim]

/-- The catch block satisfies the finalization contract. -/
theorem exnCatch_spec (st : ChatState) :
    FinalizationSpec st (finalizeCatch st, RunReason.streamExn) := by
  unfold FinalizationSpec
  obtain ⟨hc, hms, htc, hmeta, hparts, hct, hab, hemT, hemF, himp1, himp2⟩ :=
    finalizeCatch_spec st
  refine ⟨hc, by intro hr; simp at hr, by intro hr; simp at hr, ?_,
          by intro hr; rcases hr with hr | hr <;> simp at hr, ?_⟩
  · intro _
    refine ⟨?_, ?_, ?_⟩
    · intro hne
      rw [hparts] at hne ⊢
      obtain ⟨m1, m2, m3⟩ := himp1 hne
      exact ⟨m1, by rw [hmeta]; exact m2, m3⟩
    · intro hne
      rw [hparts] at hne
      exact himp2 hne
    · intro hna
      rw [hab] at hna
      exact hemF hna
  · intro _ _ htrim
    rw [hct] at htrim
    rw [hparts]
    simp [flushedParts, htrim]

/-- The finalization contract only reads the entry row and saved message
list, so it transports along states that agree on them. -/
theorem FinalizationSpec_transport (st1 st2 : ChatState) (r : ChatState × RunReason)
    (hdb : st1.db = st2.db) (hms : st1.messagesToSave = st2.messagesToSave)
    (h : FinalizationSpec st1 r) : FinalizationSpec st2 r := by
  unfold FinalizationSpec at h ⊢
  rw [← hdb, ← hms]
  exact h

/-- The streaming section satisfies its pre-teardown contract over every
event sequence, by induction on the events. -/
theorem runEvents_spec (st : ChatState) (events : List StreamEvent) :
    FinalizationSpec st (runEvents st events) := by
  induction events generalizing st with
  | nil => exact afterLoop_spec st
  | cons e rest ih =>
    cases e with
    | abortEvt => exact ih { st with aborted := true }
    | exn => exact exnCatch_spec st
    | msg m =>
      by_cases ha : st.aborted = true
      · unfold runEvents
        rw [if_pos ha]
        exact afterLoop_spec st
      · have ha2 : st.aborted = false := by revert ha; cases st.aborted <;> simp
        unfold runEvents
        rw [if_neg ha]
        by_cases he : m.isErrorMsg = true
        · rw [if_pos he]
          obtain ⟨e1, e2, e3, e4⟩ := embeddedErrorReturn_spec
            { st with messageCount := st.messageCount + 1 } m ha2
          unfold FinalizationSpec
          refine ⟨e3, ?_, by intro hr; simp at hr, by intro hr; simp at hr,
                  by intro hr; rcases hr with hr | hr <;> simp at hr, ?_⟩
          · intro _
            exact ⟨e1, e4⟩
          · intro hne
            exact absurd rfl hne
        · rw [if_neg he]
          have hframe := processChunks_frame
            { st with
                messageCount := st.messageCount + 1,
                metaSession := mergeSession m.sessionId st.metaSession,
                currentSessionId := mergeSession m.sessionId st.currentSessionId,
                transformedCount := st.transformedCount + 1 } m.chunks
          exact FinalizationSpec_transport _ st _ hframe.1 hframe.2.1 (ih _)

/-- C1 (amended): the end-to-end finalization invariant over every event
sequence, subscription teardown included. Every exit completes the
subscription, clears the stream marker and writes the tracked session
id; the normal, user-abort and exception exits flush the running text
and append the accumulated parts as one assistant message exactly when
at least one part accumulated; but the embedded-SDK-error and
empty-response early returns append nothing — accumulated partial
progress is discarded there — while still emitting a terminating finish
chunk, and the exception path emits its finish chunk only when the
abort signal is not set. -/
theorem C1_finalization (st : ChatState) (events : List StreamEvent) :
    SessionFinalizationSpec st (runSession st events) := by
  obtain ⟨hc, hemb, hempty, hexn, hok, hflush⟩ := runEvents_spec st events
  unfold SessionFinalizationSpec runSession subscriptionTeardown
  dsimp only
  refine ⟨hc, rfl, ?_, ?_, ?_, ?_, hflush⟩
  · intro hr
    obtain ⟨hdb, hfin⟩ := hemb hr
    exact ⟨by rw [hdb], by rw [hdb], hfin⟩
  · intro hr
    obtain ⟨hdb, hfin⟩ := hempty hr
    exact ⟨by rw [hdb], by rw [hdb], hfin⟩
  · intro hr
    obtain ⟨hpe, hp0, hfin⟩ := hexn hr
    refine ⟨?_, ?_, hfin⟩
    · intro hne
      obtain ⟨hm, hs, -⟩ := hpe hne
      exact ⟨hm, by rw [hs]⟩
    · intro he
      have hdb := hp0 he
      exact ⟨by rw [hdb], by rw [hdb]⟩
  · intro hr
    obtain ⟨-, hsid, hpe, hp0⟩ := hok hr
    exact ⟨by rw [hsid], hpe, hp0⟩

/-- C1 counterexample: a session that accumulates a text part and then
receives a raw message carrying an embedded SDK-level error ends through
the early return: a finish chunk is emitted and the subscription
teardown still clears the stream marker and saves the session id, but
the accumulated part is discarded — no assistant message is appended to
the row — refuting the claim that partial progress is never discarded on
any failure path. -/
theorem C1_counterexample :
    (chatRun ⟨[], none, none⟩ ("hi") ("s1")
        [StreamEvent.msg ⟨false, false, some ("sess"),
           [TChunk.textDelta ("Hello"), TChunk.textEnd]⟩,
         StreamEvent.msg ⟨true, false, none, []⟩]).2 = RunReason.embeddedError ∧
    (chatRun ⟨[], none, none⟩ ("hi") ("s1")
        [StreamEvent.msg ⟨false, false, some ("sess"),
           [TChunk.textDelta ("Hello"), TChunk.textEnd]⟩,
         StreamEvent.msg ⟨true, false, none, []⟩]).1.parts = [MsgPart.text ("Hello")] ∧
    (chatRun ⟨[], none, none⟩ ("hi") ("s1")
        [StreamEvent.msg ⟨false, false, some ("sess"),
           [TChunk.textDelta ("Hello"), TChunk.textEnd]⟩,
         StreamEvent.msg ⟨true, false, none, []⟩]).1.db.messages
      = [userMessageForPrompt ("hi")] ∧
    (chatRun ⟨[], none, none⟩ ("hi") ("s1")
        [StreamEvent.msg ⟨false, false, some ("sess"),
           [TChunk.textDelta ("Hello"), TChunk.textEnd]⟩,
         StreamEvent.msg ⟨true, false, none, []⟩]).1.db.streamId = none ∧
    (chatRun ⟨[], none, none⟩ ("hi") ("s1")
        [StreamEvent.msg ⟨false, false, some ("sess"),
           [TChunk.textDelta ("Hello"), TChunk.textEnd]⟩,
         StreamEvent.msg ⟨true, false, none, []⟩]).1.db.sessionId = some ("sess") ∧
    UIChunk.finish ∈ (chatRun ⟨[], none, none⟩ ("hi") ("s1")
        [StreamEvent.msg ⟨false, false, some ("sess"),
           [TChunk.textDelta ("Hello"), TChunk.textEnd]⟩,
         StreamEvent.msg ⟨true, false, none, []⟩]).1.emitted := by
  decide

/-- C1 witness: the end-to-end finalization contract applied to a
concrete crash run — one text part accumulated, then the stream throws:
the assistant message is persisted and the stream marker cleared. -/
theorem C1_finalization_witness :
    (runSession (initChatState ⟨[], none, none⟩ ("hi") ("s1"))
        [StreamEvent.msg ⟨false, false, some ("sess"),
           [TChunk.textDelta ("Hello"), TChunk.textEnd]⟩,
         StreamEvent.exn]).1.db.streamId = none ∧
    (runSession (initChatState ⟨[], none, none⟩ ("hi") ("s1"))
        [StreamEvent.msg ⟨false, false, some ("sess"),
           [TChunk.textDelta ("Hello"), TChunk.textEnd]⟩,
         StreamEvent.exn]).1.db.messages
      = [userMessageForPrompt ("hi"),
         assistantMessage [MsgPart.text ("Hello")]] := by
  have h := C1_finalization (initChatState ⟨[], none, none⟩ ("hi") ("s1"))
    [StreamEvent.msg ⟨false, false, some ("sess"),
       [TChunk.textDelta ("Hello"), TChunk.textEnd]⟩,
     StreamEvent.exn]
  obtain ⟨-, hsid, -, -, hexn, -, -⟩ := h
  obtain ⟨hpersist, -, -⟩ := hexn (by decide)
  obtain ⟨hmsgs, -⟩ := hpersist (by decide)
  refine ⟨hsid, ?_⟩
  rw [hmsgs]
  decide

/-- Matching a literal never lengthens the remainder. -/
theorem dropLit_le (p cs r : List Char) (h : dropLit p cs = some r) :
    r.length ≤ cs.length := by
  induction p generalizing cs with
  | nil =>
    simp [dropLit] at h
    simp [h]
  | cons a ps ih =>
    cases cs with
    | nil => simp [dropLit] at h
    | cons c cs2 =>
      simp only [dropLit] at h
      by_cases hc : c = a
      · rw [if_pos hc] at h
        exact (ih cs2 h).trans (by simp)
      · rw [if_neg hc] at h
        cases h

/-- Splitting at the first closing bracket consumes at least one
character. -/
theorem splitAtRB_lt (cs n r : List Char) (h : splitAtRB cs = some (n, r)) :
    r.length < cs.length := by
  induction cs generalizing n r with
  | nil => simp [splitAtRB] at h
  | cons c cs2 ih =>
    simp only [splitAtRB] at h
    by_cases hc : c = ']'
    · rw [if_pos hc] at h
      simp at h
      simp [← h.2]
    · rw [if_neg hc] at h
      cases hs : splitAtRB cs2 with
      | none => rw [hs] at h; cases h
      | some pr =>
        rw [hs] at h
        simp at h
        have := ih pr.1 pr.2 (by rw [hs])
        simp [← h.2]
        omega

/-- A kind-word match never lengthens the remainder. -/
theorem tryKinds_le (ks : List MKind) (cs r : List Char) (k : MKind)
    (h : tryKinds ks cs = some (k, r)) : r.length ≤ cs.length := by
  induction ks with
  | nil => simp [tryKinds] at h
  | cons k2 ks2 ih =>
    simp only [tryKinds] at h
    cases hd : dropLit (kindWord k2 ++ [':']) cs with
    | none => rw [hd] at h; exact ih h
    | some r2 =>
      rw [hd] at h
      simp at h
      rw [← h.2]
      exact dropLit_le _ _ _ hd

/-- A mention match consumes at least one character. -/
theorem tryMention_rest_lt (cs : List Char) (k : MKind) (n rest : List Char)
    (h : tryMention cs = some (k, n, rest)) : rest.length < cs.length := by
  unfold tryMention at h
  cases h1 : dropLit ['@', '['] cs with
  | none => rw [h1] at h; cases h
  | some r1 =>
    rw [h1] at h
    dsimp only at h
    cases h2 : tryKinds mentionKinds r1 with
    | none => rw [h2] at h; cases h
    | some kr =>
      rw [h2] at h
      dsimp only at h
      cases h3 : splitAtRB kr.2 with
      | none => rw [h3] at h; cases h
      | some nr =>
        rw [h3] at h
        dsimp only at h
        by_cases hn : nr.1 = []
        · rw [if_pos hn] at h; cases h
        · rw [if_neg hn] at h
          simp at h
          have l1 := dropLit_le _ _ _ h1
          have l2 := tryKinds_le _ _ _ _ (by rw [h2])
          have l3 := splitAtRB_lt _ _ _ (by rw [h3] : splitAtRB kr.2 = some (nr.1, nr.2))
          have hr : rest = nr.2 := by
            have := h.2
            rw [Prod.ext_iff] at this
            exact this.2.symm
          rw [hr]
          omega

/-- A single-kind mention match consumes at least one character. -/
theorem tryMentionK_rest_lt (k : MKind) (cs rest : List Char)
    (h : tryMentionK k cs = some rest) : rest.length < cs.length := by
  unfold tryMentionK at h
  cases h1 : dropLit ('@' :: '[' :: (kindWord k ++ [':'])) cs with
  | none => rw [h1] at h; cases h
  | some r =>
    rw [h1] at h
    dsimp only at h
    cases h2 : splitAtRB r with
    | none => rw [h2] at h; cases h
    | some nr =>
      rw [h2] at h
      dsimp only at h
      by_cases hn : nr.1 = []
      · rw [if_pos hn] at h; cases h
      · rw [if_neg hn] at h
        simp at h
        have l1 := dropLit_le _ _ _ h1
        have l2 := splitAtRB_lt _ _ _ (by rw [h2] : splitAtRB r = some (nr.1, nr.2))
        rw [← h]
        omega

/-- The scan of the empty input is empty at any fuel. -/
theorem scanAux_nil (fuel : Nat) : scanAux fuel [] = [] := by
  cases fuel <;> rfl

/-- The removal pass on the empty input is empty at any fuel. -/
theorem removeAux_nil (k : MKind) (fuel : Nat) : removeAux k fuel [] = [] := by
  cases fuel <;> rfl

/-- The scan result does not depend on the fuel once the fuel covers
the input length. -/
theorem scanAux_fuel (fuel : Nat) : ∀ (fuel2 : Nat) (cs : List Char),
    cs.length ≤ fuel → cs.length ≤ fuel2 → scanAux fuel cs = scanAux fuel2 cs := by
  induction fuel with
  | zero =>
    intro fuel2 cs h1 _
    have hcs : cs = [] := by
      cases cs with
      | nil => rfl
      | cons a b => simp at h1
    rw [hcs, scanAux_nil, scanAux_nil]
  | succ f ih =>
    intro fuel2 cs h1 h2
    cases cs with
    | nil => rw [scanAux_nil, scanAux_nil]
    | cons c t =>
      cases fuel2 with
      | zero => simp at h2
      | succ f2 =>
        simp only [scanAux]
        cases hm : tryMention (c :: t) with
        | some knr =>
          obtain ⟨k, n, rest⟩ := knr
          have hl := tryMention_rest_lt _ _ _ _ hm
          simp only [List.length_cons] at h1 h2 hl
          dsimp only
          rw [ih f2 rest (by omega) (by omega)]
        | none =>
          simp only [List.length_cons] at h1 h2
          dsimp only
          exact ih f2 t (by omega) (by omega)

/-- The removal result does not depend on the fuel once the fuel covers
the input length. -/
theorem removeAux_fuel (k : MKind) (fuel : Nat) : ∀ (fuel2 : Nat) (cs : List Char),
    cs.length ≤ fuel → cs.length ≤ fuel2 → removeAux k fuel cs = removeAux k fuel2 cs := by
  induction fuel with
  | zero =>
    intro fuel2 cs h1 _
    have hcs : cs = [] := by
      cases cs with
      | nil => rfl
      | cons a b => simp at h1
    rw [hcs, removeAux_nil, removeAux_nil]
  | succ f ih =>
    intro fuel2 cs h1 h2
    cases cs with
    | nil => rw [removeAux_nil, removeAux_nil]
    | cons c t =>
      cases fuel2 with
      | zero => simp at h2
      | succ f2 =>
        simp only [removeAux]
        cases hm : tryMentionK k (c :: t) with
        | some rest =>
          have hl := tryMentionK_rest_lt _ _ _ hm
          simp only [List.length_cons] at h1 h2 hl
          dsimp only
          rw [ih f2 rest (by omega) (by omega)]
        | none =>
          simp only [List.length_cons] at h1 h2
          dsimp only
          rw [ih f2 t (by omega) (by omega)]

/-- Scan step: a mention match at the head is recorded and the scan
continues after it. -/
theorem scanMentions_some (cs : List Char) (k : MKind) (n rest : List Char)
    (h : tryMention cs = some (k, n, rest)) :
    scanMentions cs = (k, n) :: scanMentions rest := by
  cases cs with
  | nil => simp [tryMention, dropLit] at h
  | cons c t =>
    unfold scanMentions
    simp only [List.length_cons, scanAux, h]
    have hl := tryMention_rest_lt _ _ _ _ h
    simp only [List.length_cons] at hl
    rw [scanAux_fuel t.length rest.length rest (by omega) le_rfl]

/-- Scan step: with no match at the head the scan advances one
character. -/
theorem scanMentions_none_cons (c : Char) (t : List Char)
    (h : tryMention (c :: t) = none) : scanMentions (c :: t) = scanMentions t := by
  unfold scanMentions
  simp only [List.length_cons, scanAux, h]

/-- Removal step: a single-kind match at the head is dropped and the
pass continues after it. -/
theorem removeKind_some (k : MKind) (cs rest : List Char)
    (h : tryMentionK k cs = some rest) :
    removeKind k cs = removeKind k rest := by
  cases cs with
  | nil => simp [tryMentionK, dropLit] at h
  | cons c t =>
    unfold removeKind
    simp only [List.length_cons, removeAux, h]
    have hl := tryMentionK_rest_lt _ _ _ h
    simp only [List.length_cons] at hl
    rw [removeAux_fuel k t.length rest.length rest (by omega) le_rfl]

/-- Removal step: with no match at the head the character is kept. -/
theorem removeKind_none_cons (k : MKind) (c : Char) (t : List Char)
    (h : tryMentionK k (c :: t) = none) :
    removeKind k (c :: t) = c :: removeKind k t := by
  unfold removeKind
  simp only [List.length_cons, removeAux, h]

/-- No mention match starts at a character other than the at sign. -/
theorem tryMention_not_at (c : Char) (cs : List Char) (h : c ≠ '@') :
    tryMention (c :: cs) = none := by
  unfold tryMention
  simp [dropLit, h]

/-- No single-kind match starts at a character other than the at
sign. -/
theorem tryMentionK_not_at (k : MKind) (c : Char) (cs : List Char) (h : c ≠ '@') :
    tryMentionK k (c :: cs) = none := by
  unfold tryMentionK
  simp [dropLit, h]

/-- The scan skips over text without at signs. -/
theorem scanMentions_plain (s rest : List Char) (h : '@' ∉ s) :
    scanMentions (s ++ rest) = scanMentions rest := by
  induction s with
  | nil => rfl
  | cons c t ih =>
    have hc : c ≠ '@' := fun hh => h (by simp [hh])
    rw [List.cons_append, scanMentions_none_cons _ _ (tryMention_not_at _ _ hc)]
    exact ih (fun hm => h (by simp [hm]))

/-- A removal pass copies text without at signs verbatim. -/
theorem removeKind_plain (k : MKind) (s rest : List Char) (h : '@' ∉ s) :
    removeKind k (s ++ rest) = s ++ removeKind k rest := by
  induction s with
  | nil => rfl
  | cons c t ih =>
    have hc : c ≠ '@' := fun hh => h (by simp [hh])
    rw [List.cons_append, removeKind_none_cons _ _ _ (tryMentionK_not_at _ _ _ hc),
        ih (fun hm => h (by simp [hm])), List.cons_append]

/-- A literal matches its own text. -/
theorem dropLit_append (p rest : List Char) : dropLit p (p ++ rest) = some rest := by
  induction p with
  | nil => rfl
  | cons a t ih => simp [dropLit, ih]

/-- The split at the first closing bracket recovers a name without
closing brackets exactly. -/
theorem splitAtRB_exact (n rest : List Char) (h : ']' ∉ n) :
    splitAtRB (n ++ ']' :: rest) = some (n, rest) := by
  induction n with
  | nil => simp [splitAtRB]
  | cons c t ih =>
    have hc : c ≠ ']' := fun hh => h (by simp [hh])
    simp only [List.cons_append, splitAtRB, List.append_eq]
    rw [if_neg hc, ih (fun hm => h (by simp [hm]))]

/-- A kind word with its colon never matches at the start of a token of
a different kind. -/
theorem kindWord_ne_drop (k k2 : MKind) (tail : List Char) (h : k ≠ k2) :
    dropLit (kindWord k ++ [':']) (kindWord k2 ++ ':' :: tail) = none := by
  cases k <;> cases k2 <;> simp_all [kindWord, dropLit]

/-- Kind words contain no at sign. -/
theorem kindWord_no_at (k : MKind) : '@' ∉ kindWord k := by
  cases k <;> decide

/-- The alternation recognizes exactly the kind word a token starts
with. -/
theorem tryKinds_token (k : MKind) (tail : List Char) :
    tryKinds mentionKinds (kindWord k ++ ':' :: tail) = some (k, tail) := by
  have key : ∀ k2, dropLit (kindWord k2 ++ [':']) (kindWord k ++ ':' :: tail)
      = if k2 = k then some tail else none := by
    intro k2
    by_cases hk : k2 = k
    · subst hk
      rw [if_pos rfl]
      have hsh : kindWord k2 ++ ':' :: tail = (kindWord k2 ++ [':']) ++ tail := by simp
      rw [hsh, dropLit_append]
    · rw [if_neg hk]
      exact kindWord_ne_drop k2 k tail hk
  cases k <;> simp [mentionKinds, tryKinds, key]

/-- The extraction regex matches a rendered well-formed token exactly,
yielding its kind and name. -/
theorem tryMention_token (k : MKind) (n rest : List Char) (hn : n ≠ []) (hb : ']' ∉ n) :
    tryMention (renderSeg (MSeg.tok k n) ++ rest) = some (k, n, rest) := by
  have hshape : renderSeg (MSeg.tok k n) ++ rest
      = '@' :: '[' :: (kindWord k ++ ':' :: (n ++ ']' :: rest)) := by
    simp [renderSeg]
  rw [hshape]
  unfold tryMention
  rw [show dropLit ['@', '['] ('@' :: '[' :: (kindWord k ++ ':' :: (n ++ ']' :: rest)))
      = some (kindWord k ++ ':' :: (n ++ ']' :: rest)) by simp [dropLit]]
  dsimp only
  rw [tryKinds_token]
  dsimp only
  rw [splitAtRB_exact n rest hb]
  dsimp only
  rw [if_neg hn]

/-- The removal regex of a kind matches a rendered token of the same
kind exactly. -/
theorem tryMentionK_token_eq (k : MKind) (n rest : List Char) (hn : n ≠ []) (hb : ']' ∉ n) :
    tryMentionK k (renderSeg (MSeg.tok k n) ++ rest) = some rest := by
  have hshape : renderSeg (MSeg.tok k n) ++ rest
      = ('@' :: '[' :: (kindWord k ++ [':'])) ++ (n ++ ']' :: rest) := by
    simp [renderSeg]
  rw [hshape]
  unfold tryMentionK
  rw [dropLit_append]
  dsimp only
  rw [splitAtRB_exact n rest hb]
  dsimp only
  rw [if_neg hn]

/-- The removal regex of a kind does not match at the start of a token
of a different kind. -/
theorem tryMentionK_token_ne (k k2 : MKind) (n rest : List Char) (h : k ≠ k2) :
    tryMentionK k (renderSeg (MSeg.tok k2 n) ++ rest) = none := by
  have hshape : renderSeg (MSeg.tok k2 n) ++ rest
      = '@' :: '[' :: (kindWord k2 ++ ':' :: (n ++ ']' :: rest)) := by
    simp [renderSeg]
  rw [hshape]
  unfold tryMentionK
  rw [show dropLit ('@' :: '[' :: (kindWord k ++ [':']))
        ('@' :: '[' :: (kindWord k2 ++ ':' :: (n ++ ']' :: rest)))
      = dropLit (kindWord k ++ [':']) (kindWord k2 ++ ':' :: (n ++ ']' :: rest)) by
    simp [dropLit]]
  rw [kindWord_ne_drop k k2 (n ++ ']' :: rest) h]

/-- Rendering distributes over consing a segment. -/
theorem renderSegs_cons (s : MSeg) (rest : List MSeg) :
    renderSegs (s :: rest) = renderSeg s ++ renderSegs rest := by
  simp [renderSegs]

/-- After its leading at sign, a well-formed token contains no further
at sign. -/
theorem token_tail_no_at (k : MKind) (n : List Char) (hna : '@' ∉ n) :
    '@' ∉ '[' :: (kindWord k ++ ':' :: (n ++ [']'])) := by
  intro hm
  rcases List.mem_cons.mp hm with h1 | h2
  · exact absurd h1 (by decide)
  rcases List.mem_append.mp h2 with h3 | h4
  · exact kindWord_no_at k h3
  rcases List.mem_cons.mp h4 with h5 | h6
  · exact absurd h5 (by decide)
  rcases List.mem_append.mp h6 with h7 | h8
  · exact hna h7
  · exact absurd h8 (by decide)

/-- The scan of a rendered well-formed segment list yields exactly its
tokens in order. -/
theorem scan_render (ss : List MSeg) (hwf : ∀ s ∈ ss, wfSeg s) :
    scanMentions (renderSegs ss)
      = ss.filterMap (fun s =>
          match s with
          | MSeg.tok k n => some (k, n)
          | MSeg.plain _ => none) := by
  induction ss with
  | nil => rfl
  | cons s rest ih =>
    have hs := hwf s (by simp)
    have hrest : ∀ s2 ∈ rest, wfSeg s2 := fun s2 hm => hwf s2 (by simp [hm])
    cases s with
    | plain p =>
      have hs2 : '@' ∉ p := hs
      rw [renderSegs_cons, show renderSeg (MSeg.plain p) = p from rfl,
          scanMentions_plain p _ hs2]
      simpa using ih hrest
    | tok k n =>
      obtain ⟨hn, hna, hnb⟩ := hs
      rw [renderSegs_cons]
      rw [scanMentions_some _ k n _ (tryMention_token k n _ hn hnb)]
      simp only [List.filterMap_cons]
      rw [ih hrest]

/-- A removal pass on a rendered well-formed segment list removes
exactly the tokens of its kind and keeps everything else verbatim. -/
theorem remove_render (k : MKind) (ss : List MSeg) (hwf : ∀ s ∈ ss, wfSeg s) :
    removeKind k (renderSegs ss)
      = renderSegs (ss.filter (fun s =>
          match s with
          | MSeg.tok k2 _ => k2 != k
          | MSeg.plain _ => true)) := by
  induction ss with
  | nil => rfl
  | cons s rest ih =>
    have hs := hwf s (by simp)
    have hrest : ∀ s2 ∈ rest, wfSeg s2 := fun s2 hm => hwf s2 (by simp [hm])
    cases s with
    | plain p =>
      have hs2 : '@' ∉ p := hs
      rw [renderSegs_cons, show renderSeg (MSeg.plain p) = p from rfl,
          removeKind_plain k p _ hs2, ih hrest]
      rw [show (MSeg.plain p :: rest).filter (fun s =>
            match s with
            | MSeg.tok k2 _ => k2 != k
            | MSeg.plain _ => true)
          = MSeg.plain p :: rest.filter (fun s =>
            match s with
            | MSeg.tok k2 _ => k2 != k
            | MSeg.plain _ => true) from rfl]
      rw [renderSegs_cons, show renderSeg (MSeg.plain p) = p from rfl]
    | tok k2 n =>
      obtain ⟨hn, hna, hnb⟩ := hs
      by_cases hk : k2 = k
      · subst hk
        rw [renderSegs_cons,
            removeKind_some k2 _ _ (tryMentionK_token_eq k2 n _ hn hnb), ih hrest]
        simp
      · have hne := tryMentionK_token_ne k k2 n (renderSegs rest) (fun hh => hk hh.symm)
        have hsh : renderSeg (MSeg.tok k2 n) ++ renderSegs rest
            = '@' :: (('[' :: (kindWord k2 ++ ':' :: (n ++ [']']))) ++ renderSegs rest) := by
          simp [renderSeg]
        rw [renderSegs_cons, hsh]
        rw [removeKind_none_cons k '@' _ (by rw [← hsh]; exact hne)]
        rw [removeKind_plain k ('[' :: (kindWord k2 ++ ':' :: (n ++ [']']))) _
            (token_tail_no_at k2 n hna), ih hrest]
        have hfil : (MSeg.tok k2 n :: rest).filter (fun s =>
              match s with
              | MSeg.tok k3 _ => k3 != k
              | MSeg.plain _ => true)
            = MSeg.tok k2 n :: rest.filter (fun s =>
              match s with
              | MSeg.tok k3 _ => k3 != k
              | MSeg.plain _ => true) := by
          simp [List.filter_cons, hk]
        rw [hfil, renderSegs_cons]
        simp [renderSeg]

/-- The dispatch fold sorts the scanned matches into the five lists in
scan order, validating tool names. -/
theorem foldl_pushMention (ms : List (MKind × List Char)) : ∀ acc : ParsedMentions,
    (ms.foldl pushMention acc).agentMentions
        = acc.agentMentions ++ mentionsOf MKind.agent ms ∧
    (ms.foldl pushMention acc).skillMentions
        = acc.skillMentions ++ mentionsOf MKind.skill ms ∧
    (ms.foldl pushMention acc).fileMentions
        = acc.fileMentions ++ mentionsOf MKind.file ms ∧
    (ms.foldl pushMention acc).folderMentions
        = acc.folderMentions ++ mentionsOf MKind.folder ms ∧
    (ms.foldl pushMention acc).toolMentions
        = acc.toolMentions ++ (mentionsOf MKind.tool ms).filter validToolName ∧
    (ms.foldl pushMention acc).cleanedPrompt = acc.cleanedPrompt := by
  induction ms with
  | nil =>
    intro acc
    simp [mentionsOf]
  | cons m rest ih =>
    intro acc
    obtain ⟨k, n⟩ := m
    cases k
    case file =>
      obtain ⟨ha, hsk, hf, hfo, ht, hc⟩ := ih (pushMention acc (MKind.file, n))
      simp only [pushMention] at ha hsk hf hfo ht hc
      refine ⟨?_, ?_, ?_, ?_, ?_, ?_⟩ <;>
        simp [ha, hsk, hf, hfo, ht, hc, pushMention, mentionsOf]
    case folder =>
      obtain ⟨ha, hsk, hf, hfo, ht, hc⟩ := ih (pushMention acc (MKind.folder, n))
      simp only [pushMention] at ha hsk hf hfo ht hc
      refine ⟨?_, ?_, ?_, ?_, ?_, ?_⟩ <;>
        simp [ha, hsk, hf, hfo, ht, hc, pushMention, mentionsOf]
    case skill =>
      obtain ⟨ha, hsk, hf, hfo, ht, hc⟩ := ih (pushMention acc (MKind.skill, n))
      simp only [pushMention] at ha hsk hf hfo ht hc
      refine ⟨?_, ?_, ?_, ?_, ?_, ?_⟩ <;>
        simp [ha, hsk, hf, hfo, ht, hc, pushMention, mentionsOf]
    case agent =>
      obtain ⟨ha, hsk, hf, hfo, ht, hc⟩ := ih (pushMention acc (MKind.agent, n))
      simp only [pushMention] at ha hsk hf hfo ht hc
      refine ⟨?_, ?_, ?_, ?_, ?_, ?_⟩ <;>
        simp [ha, hsk, hf, hfo, ht, hc, pushMention, mentionsOf]
    case tool =>
      obtain ⟨ha, hsk, hf, hfo, ht, hc⟩ := ih (pushMention acc (MKind.tool, n))
      by_cases hv : validToolName n = true
      · simp only [pushMention, hv, if_true] at ha hsk hf hfo ht hc
        refine ⟨?_, ?_, ?_, ?_, ?_, ?_⟩ <;>
          simp [ha, hsk, hf, hfo, ht, hc, pushMention, mentionsOf, hv]
      · have hv2 : validToolName n = false := by
          revert hv
          cases validToolName n <;> simp
        simp [pushMention, hv2] at ha hsk hf hfo ht hc
        refine ⟨?_, ?_, ?_, ?_, ?_, ?_⟩ <;>
          simp [ha, hsk, hf, hfo, ht, hc, pushMention, mentionsOf, hv2]

/-- The per-kind projection of the token list of a segment list is its
per-kind name list. -/
theorem mentionsOf_filterMap_seg (k : MKind) (ss : List MSeg) :
    mentionsOf k (ss.filterMap (fun s =>
        match s with
        | MSeg.tok k2 n => some (k2, n)
        | MSeg.plain _ => none))
      = segNames k ss := by
  induction ss with
  | nil => rfl
  | cons s rest ih =>
    cases s with
    | plain p =>
      simpa [segNames, mentionsOf, List.filterMap_cons] using ih
    | tok k2 n =>
      by_cases hk : k2 = k <;>
        simp [segNames, mentionsOf, List.filterMap_cons, hk] <;>
          simpa [segNames, mentionsOf] using ih

/-- C9: a scanned tool mention is accepted into the tool-mention list if
and only if its name matches the validation regex — nonempty and made
only of Latin letters, digits, underscores and hyphens; an invalid tool
mention is dropped silently (the parser is total and the other matches
are unaffected, as the list equation over the full scan shows). -/
theorem C9_tool_name_validation (p : List Char) :
    (parseMentions p).toolMentions
      = (mentionsOf MKind.tool (scanMentions p)).filter validToolName ∧
    (∀ n, n ∈ (parseMentions p).toolMentions
        ↔ ((MKind.tool, n) ∈ scanMentions p ∧ validToolName n = true)) ∧
    (∀ n, validToolName n = true ↔ (n ≠ [] ∧ ∀ c ∈ n, isToolChar c = true)) := by
  have heq : (parseMentions p).toolMentions
      = (mentionsOf MKind.tool (scanMentions p)).filter validToolName := by
    unfold parseMentions
    dsimp only
    obtain ⟨-, -, -, -, ht, -⟩ := foldl_pushMention (scanMentions p)
      { cleanedPrompt := [], agentMentions := [], skillMentions := [],
        fileMentions := [], folderMentions := [], toolMentions := [] }
    simpa using ht
  refine ⟨heq, ?_, ?_⟩
  · intro n
    rw [heq]
    simp only [List.mem_filter, mentionsOf, List.mem_filterMap]
    constructor
    · rintro ⟨⟨m, hm, hsome⟩, hv⟩
      refine ⟨?_, hv⟩
      obtain ⟨m1, m2⟩ := m
      by_cases hk : m1 = MKind.tool
      · subst hk
        simp at hsome
        rw [← hsome]
        exact hm
      · rw [if_neg (by simpa using hk)] at hsome
        cases hsome
    · rintro ⟨hm, hv⟩
      exact ⟨⟨(MKind.tool, n), hm, by simp⟩, hv⟩
  · intro n
    unfold validToolName
    constructor
    · intro h
      simp only [Bool.and_eq_true, Bool.not_eq_true'] at h
      refine ⟨?_, ?_⟩
      · intro hnil
        rw [hnil] at h
        simp at h
      · intro c hc
        exact List.all_eq_true.mp h.2 c hc
    · rintro ⟨hne, hall⟩
      simp only [Bool.and_eq_true, Bool.not_eq_true']
      refine ⟨?_, List.all_eq_true.mpr hall⟩
      cases n with
      | nil => exact absurd rfl hne
      | cons a b => rfl

/-- Well-formedness survives filtering. -/
theorem wf_filter (ss : List MSeg) (p : MSeg → Bool) (hwf : ∀ s ∈ ss, wfSeg s) :
    ∀ s ∈ ss.filter p, wfSeg s :=
  fun s hm => hwf s (List.mem_of_mem_filter hm)

/-- The three successive removal passes on a rendered well-formed
segment list keep exactly the plain text and the file and folder
tokens. -/
theorem cleaned_core_render (ss : List MSeg) (hwf : ∀ s ∈ ss, wfSeg s) :
    removeKind MKind.tool (removeKind MKind.skill (removeKind MKind.agent (renderSegs ss)))
      = renderSegs (ss.filter keepSeg) := by
  rw [remove_render MKind.agent ss hwf]
  rw [remove_render MKind.skill _ (wf_filter ss _ hwf)]
  rw [remove_render MKind.tool _ (wf_filter _ _ (wf_filter ss _ hwf))]
  rw [List.filter_filter, List.filter_filter]
  congr 1
  apply List.filter_congr
  intro s _
  cases s with
  | plain p => rfl
  | tok k n => cases k <;> rfl

/-- C8 (amended): for every input decomposable into plain text without
at signs and well-formed mention tokens, the parser returns the five
ordered name lists of the scanned tokens (tool names filtered by the
validation regex), and the cleaned text equals the rendering of the
input with agent, skill and tool tokens removed and file and folder
tokens preserved verbatim — additionally trimmed, and prefixed by the
tool hint block when validated tool mentions exist. On inputs with
overlapping token syntax the removal passes may alter file or folder
tokens (see the counterexample), which is why the claim is restricted to
well-formed decompositions. -/
theorem C8_parse_render (ss : List MSeg) (hwf : ∀ s ∈ ss, wfSeg s) :
    (parseMentions (renderSegs ss)).agentMentions = segNames MKind.agent ss ∧
    (parseMentions (renderSegs ss)).skillMentions = segNames MKind.skill ss ∧
    (parseMentions (renderSegs ss)).fileMentions = segNames MKind.file ss ∧
    (parseMentions (renderSegs ss)).folderMentions = segNames MKind.folder ss ∧
    (parseMentions (renderSegs ss)).toolMentions
      = (segNames MKind.tool ss).filter validToolName ∧
    (parseMentions (renderSegs ss)).cleanedPrompt
      = toolHintBlock ((segNames MKind.tool ss).filter validToolName)
        ++ jsTrim (renderSegs (ss.filter keepSeg)) := by
  have hlists : ∀ k, mentionsOf k (scanMentions (renderSegs ss)) = segNames k ss := by
    intro k
    rw [scan_render ss hwf]
    exact mentionsOf_filterMap_seg k ss
  obtain ⟨ha, hsk, hf, hfo, ht, hc⟩ := foldl_pushMention (scanMentions (renderSegs ss))
    { cleanedPrompt := [], agentMentions := [], skillMentions := [],
      fileMentions := [], folderMentions := [], toolMentions := [] }
  refine ⟨?_, ?_, ?_, ?_, ?_, ?_⟩
  · unfold parseMentions
    dsimp only
    rw [ha, hlists]
    simp
  · unfold parseMentions
    dsimp only
    rw [hsk, hlists]
    simp
  · unfold parseMentions
    dsimp only
    rw [hf, hlists]
    simp
  · unfold parseMentions
    dsimp only
    rw [hfo, hlists]
    simp
  · unfold parseMentions
    dsimp only
    rw [ht, hlists MKind.tool]
    simp
  · unfold parseMentions
    dsimp only
    rw [ht, hlists MKind.tool, cleaned_core_render ss hwf]
    by_cases hT : (segNames MKind.tool ss).filter validToolName = []
    · simp [hT, toolHintBlock]
    · simp only [List.nil_append, ne_eq, hT, not_false_iff, if_true]

/-- C8 counterexample: the cleaned text is not simply the input with
agent, skill and tool tokens removed — the result is trimmed (input
string space-hi-space yields hi), tool hints are prepended, and with
crafted overlapping syntax a file token is not preserved verbatim. -/
theorem C8_counterexample :
    (parseMentions (" hi ".data)).cleanedPrompt = ("hi".data) ∧
    (parseMentions (" hi ".data)).cleanedPrompt ≠ (" hi ".data) ∧
    (parseMentions ("@[tool:grep] hi".data)).cleanedPrompt
      = ("Use the grep tool for this request.\n\nhi".data) ∧
    (parseMentions ("@[file:zz@[agent:q]".data)).fileMentions = [("zz@[agent:q".data)] ∧
    (parseMentions ("@[file:zz@[agent:q]".data)).cleanedPrompt = ("@[file:zz".data) := by
  decide

/-- C8 witness: the amended parse-of-render characterization applied to
a concrete well-formed segment list. -/
theorem C8_parse_render_witness :
    (∀ s ∈ [MSeg.plain ("use ".data), MSeg.tok MKind.agent ("planner".data),
            MSeg.plain (" with ".data), MSeg.tok MKind.file ("a.ts".data)], wfSeg s) ∧
    (parseMentions (renderSegs
        [MSeg.plain ("use ".data), MSeg.tok MKind.agent ("planner".data),
         MSeg.plain (" with ".data), MSeg.tok MKind.file ("a.ts".data)])).agentMentions
      = segNames MKind.agent
          [MSeg.plain ("use ".data), MSeg.tok MKind.agent ("planner".data),
           MSeg.plain (" with ".data), MSeg.tok MKind.file ("a.ts".data)] ∧
    (parseMentions (renderSegs
        [MSeg.plain ("use ".data), MSeg.tok MKind.agent ("planner".data),
         MSeg.plain (" with ".data), MSeg.tok MKind.file ("a.ts".data)])).cleanedPrompt
      = toolHintBlock ((segNames MKind.tool
          [MSeg.plain ("use ".data), MSeg.tok MKind.agent ("planner".data),
           MSeg.plain (" with ".data), MSeg.tok MKind.file ("a.ts".data)]).filter validToolName)
        ++ jsTrim (renderSegs
          ([MSeg.plain ("use ".data), MSeg.tok MKind.agent ("planner".data),
            MSeg.plain (" with ".data), MSeg.tok MKind.file ("a.ts".data)].filter keepSeg)) :=
  ⟨by decide,
   (C8_parse_render
      [MSeg.plain ("use ".data), MSeg.tok MKind.agent ("planner".data),
       MSeg.plain (" with ".data), MSeg.tok MKind.file ("a.ts".data)] (by decide)).1,
   (C8_parse_render
      [MSeg.plain ("use ".data), MSeg.tok MKind.agent ("planner".data),
       MSeg.plain (" with ".data), MSeg.tok MKind.file ("a.ts".data)] (by decide)).2.2.2.2.2⟩
